import Mathlib

set_option maxRecDepth 100000

attribute [local semireducible] Rat.add Rat.sub Rat.mul Rat.inv

/-!
Verification development for the daunrodo job-orchestration service.

The Go sources are shallowly embedded: pure functions become Lean functions,
the in-memory registry and the scheduler become explicit state passing over
association lists (Go maps) and lists (Go channels/slices), and wall-clock
time is passed in as an explicit parameter (time.Now becomes a `now`
argument).  Machine integers are modelled as Int; Go float64 arithmetic in
progress/ETA computations is modelled over the rationals.
-/

namespace Daunrodo

/-! ## Go string primitives

Models of the Go standard-library string helpers the embedded code uses:
unicode.IsSpace, strings.TrimSpace, strings.Fields, strings.SplitSeq on a
newline, and bufio.ScanLines.  All work over the character list of a
string. -/

/-- Model of Go unicode.IsSpace: ASCII/Latin-1 whitespace plus the Unicode
White_Space code points. -/
def goIsSpace (c : Char) : Bool :=
  c = ' ' || c = '\t' || c = '\n' || (c.toNat = 0x0B) || (c.toNat = 0x0C) ||
  c = '\r' || c.toNat = 0x85 || c.toNat = 0xA0 ||
  c.toNat = 0x1680 || (0x2000 ≤ c.toNat && c.toNat ≤ 0x200A) ||
  c.toNat = 0x2028 || c.toNat = 0x2029 || c.toNat = 0x202F ||
  c.toNat = 0x205F || c.toNat = 0x3000

/-- Characters of a string, the representation all helpers below use. -/
def chars (s : String) : List Char := s.data

/-- Build a string back from characters. -/
def ofChars (l : List Char) : String := ⟨l⟩

/-- Model of strings.TrimSpace on a character list: drop whitespace from
both ends. -/
def trimSpaceCh (l : List Char) : List Char :=
  ((l.dropWhile goIsSpace).reverse.dropWhile goIsSpace).reverse

/-- Model of strings.TrimSpace. -/
def goTrimSpace (s : String) : String := ofChars (trimSpaceCh (chars s))

/-- Accumulator-style splitter behind strings.Fields: split a character
list on runs of whitespace. `cur` holds the current field reversed. -/
def fieldsGo (cur : List Char) : List Char → List (List Char)
  | [] => if cur.isEmpty then [] else [cur.reverse]
  | c :: cs =>
    if goIsSpace c then
      if cur.isEmpty then fieldsGo [] cs else cur.reverse :: fieldsGo [] cs
    else fieldsGo (c :: cur) cs

/-- Model of strings.Fields. -/
def goFields (s : String) : List String := (fieldsGo [] (chars s)).map ofChars

/-- Split a character list on the newline character; mirrors
strings.SplitSeq(content, newline): the empty input yields one empty
piece, and a trailing newline yields a trailing empty piece. -/
def splitLinesCh : List Char → List (List Char)
  | [] => [[]]
  | c :: cs =>
    if c = '\n' then [] :: splitLinesCh cs
    else
      match splitLinesCh cs with
      | [] => [[c]]
      | l :: ls => (c :: l) :: ls

/-- Model of splitting a Go string into lines on the newline byte.  This is
also how bufio.Scanner with ScanLines tokenises the parser inputs below:
ScanLines additionally drops one trailing carriage return per line, which
the subsequent strings.TrimSpace subsumes. -/
def goSplitLines (s : String) : List String := (splitLinesCh (chars s)).map ofChars

/-- UTF-8 encoding of one character, as byte values. -/
def utf8EncodeChar (c : Char) : List Nat :=
  let n := c.toNat
  if n < 0x80 then [n]
  else if n < 0x800 then [0xC0 ||| (n >>> 6), 0x80 ||| (n &&& 0x3F)]
  else if n < 0x10000 then
    [0xE0 ||| (n >>> 12), 0x80 ||| ((n >>> 6) &&& 0x3F), 0x80 ||| (n &&& 0x3F)]
  else
    [0xF0 ||| (n >>> 18), 0x80 ||| ((n >>> 12) &&& 0x3F),
     0x80 ||| ((n >>> 6) &&& 0x3F), 0x80 ||| (n &&& 0x3F)]

/-- UTF-8 bytes of a string; Go strings are byte strings and hashing and
len() work on these bytes. -/
def utf8Bytes (s : String) : List Nat := (chars s).flatMap utf8EncodeChar

/-- Model of Go len(s): the UTF-8 byte length. -/
def goLen (s : String) : Nat := (utf8Bytes s).length

/-! ## SHA-1 and RFC-4122 v5 UUIDs

Model of crypto/sha1 and of github.com/google/uuid NewSHA1/String, used by
gen.UUIDv5 (pkg/gen, also pkg/jobid GenUUIDv5).  Words are Nat reduced
mod 2^32 at each step. -/

/-- Truncate to a 32-bit word. -/
def w32 (n : Nat) : Nat := n % 4294967296

/-- 32-bit left rotation. -/
def rotl32 (n k : Nat) : Nat := w32 (n <<< k) ||| (w32 n >>> (32 - k))

/-- SHA-1 round constant for round t. -/
def sha1K (t : Nat) : Nat :=
  if t < 20 then 0x5A827999
  else if t < 40 then 0x6ED9EBA1
  else if t < 60 then 0x8F1BBCDC
  else 0xCA62C1D6

/-- SHA-1 round function for round t. -/
def sha1F (t b c d : Nat) : Nat :=
  if t < 20 then (b &&& c) ||| ((w32 b ^^^ 0xFFFFFFFF) &&& d)
  else if t < 40 then (b ^^^ c) ^^^ d
  else if t < 60 then (b &&& c) ||| (b &&& d) ||| (c &&& d)
  else (b ^^^ c) ^^^ d

/-- Message schedule: extend the 16 block words to 80 words. -/
def sha1Schedule (ws : List Nat) : Nat → List Nat
  | 0 => ws
  | n + 1 =>
    let ws := sha1Schedule ws n
    let t := ws.length
    let wd := fun i => ws.getD i 0
    ws ++ [rotl32 ((wd (t - 3) ^^^ wd (t - 8)) ^^^
                   (wd (t - 14) ^^^ wd (t - 16))) 1]

/-- One round of SHA-1 compression on state (a, b, c, d, e). -/
def sha1Round (st : Nat × Nat × Nat × Nat × Nat) (tw : Nat × Nat) :
    Nat × Nat × Nat × Nat × Nat :=
  let (a, b, c, d, e) := st
  let (t, wt) := tw
  let tmp := w32 (rotl32 a 5 + sha1F t b c d + e + sha1K t + wt)
  (tmp, a, rotl32 b 30, c, d)

/-- Pack four bytes big-endian into a word. -/
def be32 (b0 b1 b2 b3 : Nat) : Nat := ((b0 <<< 24) + (b1 <<< 16) + (b2 <<< 8) + b3)

/-- Group a byte list into big-endian 32-bit words (length must be a
multiple of four, which padding guarantees). -/
def bytesToWords : List Nat → List Nat
  | b0 :: b1 :: b2 :: b3 :: rest => be32 b0 b1 b2 b3 :: bytesToWords rest
  | _ => []

/-- SHA-1 compression of one 16-word block into the running digest. -/
def sha1Block (h : List Nat) (block : List Nat) : List Nat :=
  let ws := sha1Schedule block 64
  let init := (h.getD 0 0, h.getD 1 0, h.getD 2 0, h.getD 3 0, h.getD 4 0)
  let (a, b, c, d, e) := ((List.range 80).zip ws).foldl sha1Round init
  [w32 (h.getD 0 0 + a), w32 (h.getD 1 0 + b), w32 (h.getD 2 0 + c),
   w32 (h.getD 3 0 + d), w32 (h.getD 4 0 + e)]

/-- Split a byte list into 64-byte chunks; the fuel argument (instantiated
with the list length) only makes the recursion structural. -/
def chunks64Go : Nat → List Nat → List (List Nat)
  | 0, _ => []
  | _, [] => []
  | fuel + 1, l => l.take 64 :: chunks64Go fuel (l.drop 64)

/-- Split a byte list into 64-byte chunks. -/
def chunks64 (l : List Nat) : List (List Nat) := chunks64Go l.length l

/-- SHA-1 padding: append 0x80, zero-fill so the length reaches 56 mod 64,
then the bit length as a 64-bit big-endian integer.  The zero count is the
unique z in 0..63 with len + 1 + z congruent to 56 mod 64, computed as
(119 - len mod 64) mod 64 so the Nat subtraction never truncates. -/
def sha1Pad (msg : List Nat) : List Nat :=
  let len := msg.length
  let zeros := (119 - len % 64) % 64
  let bitLen := len * 8
  msg ++ [0x80] ++ List.replicate zeros 0 ++
    (List.range 8).map (fun i => (bitLen >>> (8 * (7 - i))) % 256)

/-- Word to four big-endian bytes. -/
def wordBytes (n : Nat) : List Nat :=
  [(n >>> 24) % 256, (n >>> 16) % 256, (n >>> 8) % 256, n % 256]

/-- SHA-1 digest of a byte list, as 20 bytes. -/
def sha1 (msg : List Nat) : List Nat :=
  let h0 := [0x67452301, 0xEFCDAB89, 0x98BADCFE, 0x10325476, 0xC3D2E1F0]
  let final := ((chunks64 (sha1Pad msg)).map bytesToWords).foldl sha1Block h0
  final.flatMap wordBytes

/-- The RFC-4122 URL namespace 6ba7b811-9dad-11d1-80b4-00c04fd430c8, as the
16 bytes google/uuid prepends to the name before hashing. -/
def nameSpaceURL : List Nat :=
  [0x6b, 0xa7, 0xb8, 0x11, 0x9d, 0xad, 0x11, 0xd1,
   0x80, 0xb4, 0x00, 0xc0, 0x4f, 0xd4, 0x30, 0xc8]

/-- Lowercase hex digit. -/
def hexDigit (n : Nat) : Char :=
  if n < 10 then Char.ofNat (48 + n) else Char.ofNat (87 + n)

/-- Two lowercase hex digits of a byte, as google/uuid String renders. -/
def hexByte (n : Nat) : List Char := [hexDigit (n / 16), hexDigit (n % 16)]

/-- Model of google/uuid NewSHA1 followed by String: SHA-1 of namespace
bytes then name bytes, truncated to 16 bytes, with the version nibble
forced to 5 and the variant bits to 10, rendered 8-4-4-4-12 lowercase. -/
def uuidNewSHA1 (space : List Nat) (name : List Nat) : String :=
  let d := (sha1 (space ++ name)).take 16
  let d := d.set 6 ((d.getD 6 0 &&& 0x0F) ||| 0x50)
  let d := d.set 8 ((d.getD 8 0 &&& 0x3F) ||| 0x80)
  let hx := fun (lo hi : Nat) => ((List.range (hi - lo)).map
    (fun i => hexByte (d.getD (lo + i) 0))).flatten
  ofChars (hx 0 4 ++ '-' :: hx 4 6 ++ '-' :: hx 6 8 ++ '-' :: hx 8 10 ++ '-' :: hx 10 16)

namespace gen

/-- Model of gen.Key (pkg/gen; identical to jobid.GenKey): concatenate the
two strings around a pipe separator. -/
def Key (a b : String) : String := a ++ "|" ++ b

/-- Model of gen.UUIDv5 (pkg/gen; identical to jobid.GenUUIDv5): the v5
UUID in the URL namespace of the key bytes. -/
def UUIDv5 (a b : String) : String := uuidNewSHA1 nameSpaceURL (utf8Bytes (Key a b))

end gen

/-! ## URL normalization

Model of pkg/urls Normalize: trim whitespace, then parse and re-serialize
through net/url, returning the trimmed input when parsing fails.  The
net/url call is external library code, so — exactly as json.Unmarshal is
passed to the stdout parser below — the composition of url.Parse and
URL.String is passed in as an oracle pss : String → Option String, with
none standing for a parse error.  Theorems about Normalize quantify over
the oracle or state the property of it they use as a hypothesis. -/

namespace urls

/-- Model of urls.Normalize: TrimSpace, then url.Parse / URL.String
(supplied as the oracle pss) with the trimmed input returned unchanged on
a parse error. -/
def Normalize (pss : String → Option String) (raw : String) : String :=
  let t := goTrimSpace raw
  match pss t with
  | none => t
  | some u => u

end urls

/-! ## pkg/calc

Model of calc.Progress and calc.ETA.  Go computes over float64 and
converts the results to int / time.Duration; the model computes over the
rationals with math.Round modelled as round-half-away-from-zero, and the
elapsed time passed in explicitly (time.Since(started) becomes `elapsed`).
The model therefore does not reproduce float64 rounding error on extreme
inputs, nor the float64 infinity Go produces inside ETA when
downloaded = 0 (no theorem below evaluates that corner). -/

/-- Model of math.Round: round half away from zero. -/
def goRound (q : ℚ) : Int := if 0 ≤ q then (q + 1 / 2).floor else (q - 1 / 2).ceil

namespace Calc

/-- Model of calc.Progress (the Go package is named calc): the rounded
percentage when total is positive, zero otherwise. -/
def Progress (downloaded total : Int) : Int :=
  if 0 < total then goRound ((downloaded : ℚ) / (total : ℚ) * 100) else 0

/-- Model of calc.ETA: elapsed * (total/downloaded - 1) when total is
positive, zero otherwise. -/
def ETA (downloaded total : Int) (elapsed : ℚ) : ℚ :=
  if 0 < total then elapsed * ((total : ℚ) / (downloaded : ℚ) - 1) else 0

end Calc

/-! ## Data model

entity.Job and entity.Publication.  Timestamps and durations are
rationals; int and int64 fields are Int.  Publication metadata fields
that no claim inspects (platform, channel, author, and so on) are
omitted: every embedded operation treats a Publication atomically except
for reads of uuid and filename. -/

/-- entity.JobStatus. -/
inductive JobStatus where
  | starting
  | downloading
  | error
  | finished
  | cancelled
deriving DecidableEq, Repr

/-- entity.Publication (metadata fields not used by any claim omitted). -/
structure Publication where
  uuid : String
  id : String
  title : String
  filename : String
  fileSize : Int
deriving DecidableEq, Repr

/-- entity.Job. -/
structure Job where
  uuid : String
  url : String
  preset : String
  status : JobStatus
  progress : Int
  publications : List Publication
  error : String
  estimatedEta : ℚ
  estimatedSize : Int
  totalSize : Int
  createdAt : ℚ
  updatedAt : ℚ
  expiresAt : ℚ
deriving DecidableEq, Repr

/-! ## Association-list maps

Go's map[string]V is modelled as an association list; insertion replaces
any existing binding, deletion removes the key, iteration order is the
list order (Go's iteration order is unspecified, and no property below
depends on it). -/

/-- Lookup in a Go map. -/
def lookupKey (k : String) : List (String × α) → Option α
  | [] => none
  | (k₂, v) :: rest => if k₂ = k then some v else lookupKey k rest

/-- Model of delete(m, k). -/
def eraseKey (k : String) (l : List (String × α)) : List (String × α) :=
  l.filter fun p => !(p.1 == k)

/-- Model of m[k] = v. -/
def insertKey (k : String) (v : α) (l : List (String × α)) : List (String × α) :=
  (k, v) :: eraseKey k l

/-! ## The in-memory registry (internal/storage)

The repository carries two live variants of storage.go: a value-semantics
one whose Storer stores entity.Job values, updates by job id and clones
with copyJob on every read, and a pointer one whose Storer stores
*entity.Job and updates through the shared pointer.  Both are embedded
where a claim cites both.  The registry state is the jobs map, the
publications map and the set of job ids with a registered cancel handle
(a context.CancelFunc is modelled by its registration; invoking it is
reported as a Bool result). -/

namespace storage

/-- Registry state shared by the operations below. -/
structure Store where
  jobs : List (String × Job)
  publications : List (String × Publication)
  cancelFuncs : List String
deriving Repr

/-- Field logic of the value-variant UpdateJobStatus: set status and
updated_at, overwrite progress when the passed progress is non-zero,
overwrite the error message when non-empty, and when the job's (post
update) progress is positive recompute
estimated_eta = elapsed * (100 / job.progress - 1). -/
def applyUpdate (j : Job) (status : JobStatus) (progress : Int) (errorMsg : String)
    (now : ℚ) : Job :=
  let j₁ := { j with status := status, updatedAt := now }
  let j₂ := if progress ≠ 0 then { j₁ with progress := progress } else j₁
  let j₃ := if errorMsg ≠ "" then { j₂ with error := errorMsg } else j₂
  if 0 < j₃.progress then
    { j₃ with estimatedEta := (now - j₃.createdAt) * (100 / (j₃.progress : ℚ) - 1) }
  else j₃

/-- Field logic of the pointer-variant UpdateJobStatus (also
service.go's UpdateStatus): identical to applyUpdate except that the
recomputed estimated_eta divides by the PASSED progress, not the stored
one.  The two coincide whenever the passed progress is non-zero or the
stored progress is zero, which covers every use below. -/
def applyUpdatePassed (j : Job) (status : JobStatus) (progress : Int) (errorMsg : String)
    (now : ℚ) : Job :=
  let j₁ := { j with status := status, updatedAt := now }
  let j₂ := if progress ≠ 0 then { j₁ with progress := progress } else j₁
  let j₃ := if errorMsg ≠ "" then { j₂ with error := errorMsg } else j₂
  if 0 < j₃.progress then
    { j₃ with estimatedEta := (now - j₃.createdAt) * (100 / (progress : ℚ) - 1) }
  else j₃

/-- Value-variant storage.UpdateJobStatus: empty or unknown job ids are
logged and leave the registry unchanged; otherwise the stored job is
replaced by the updated one. -/
def UpdateJobStatus (st : Store) (jobID : String) (status : JobStatus) (progress : Int)
    (errorMsg : String) (now : ℚ) : Store :=
  if jobID = "" then st
  else
    match lookupKey jobID st.jobs with
    | none => st
    | some j =>
      { st with jobs := insertKey jobID (applyUpdate j status progress errorMsg now) st.jobs }

/-- Pointer-variant UpdateJobStatus as observed through the registry: the
passed *entity.Job is the object SetJob stored, so mutating it updates
the single registry entry under its id (a nil job is logged and ignored;
a job the registry does not hold is mutated only locally, leaving the
registry unchanged). -/
def UpdateJobStatusPtr (st : Store) (jobID : String) (status : JobStatus) (progress : Int)
    (errorMsg : String) (now : ℚ) : Store :=
  match lookupKey jobID st.jobs with
  | none => st
  | some j =>
    { st with jobs := insertKey jobID (applyUpdatePassed j status progress errorMsg now) st.jobs }

/-- storage.SetJob: insert or replace by job id; a job with an empty id is
logged and ignored.  (The value variant stores copyJob(job); slice
sharing is modelled separately for the read-clone claim.) -/
def SetJob (st : Store) (job : Job) : Store :=
  if job.uuid = "" then st
  else { st with jobs := insertKey job.uuid job st.jobs }

/-- storage.GetJobByURLAndPreset: normalize (through the net/url oracle),
hash, look up. -/
def GetJobByURLAndPreset (pss : String → Option String) (st : Store)
    (url preset : String) : Option Job :=
  lookupKey (gen.UUIDv5 (urls.Normalize pss url) preset) st.jobs

/-- storage.GetJobByID. -/
def GetJobByID (st : Store) (id : String) : Option Job :=
  lookupKey id st.jobs

/-- storage.GetPublicationByID. -/
def GetPublicationByID (st : Store) (id : String) : Option Publication :=
  lookupKey id st.publications

/-- Result kind of storage.CancelJob; errJobCancelled is errs.ErrJobCancelled,
the error the spec taxonomy calls not_cancellable. -/
inductive CancelOutcome where
  | ok
  | errJobNotFound
  | errJobCancelled
deriving DecidableEq, Repr

/-- Value-variant storage.CancelJob.  Returns the outcome, the new state
and whether the registered cancel handle was invoked.  An absent job is
job-not-found; a finished, errored or cancelled job is not cancellable;
with no registered handle the call is logged and not cancellable;
otherwise the handle is invoked and the job is updated to cancelled with
the message "job cancelled by user". -/
def CancelJob (st : Store) (jobID : String) (now : ℚ) : CancelOutcome × Store × Bool :=
  match lookupKey jobID st.jobs with
  | none => (.errJobNotFound, st, false)
  | some j =>
    if j.status = .finished ∨ j.status = .error ∨ j.status = .cancelled then
      (.errJobCancelled, st, false)
    else if jobID ∈ st.cancelFuncs then
      (.ok, UpdateJobStatus st jobID .cancelled 0 "job cancelled by user" now, true)
    else (.errJobCancelled, st, false)

/-- Pointer-variant storage.CancelJob: same lookup, terminal-status and
handle checks, but on success it sets only the job's status and
updated_at through the shared pointer; the error message is left
unchanged. -/
def CancelJobPtr (st : Store) (jobID : String) (now : ℚ) : CancelOutcome × Store × Bool :=
  match lookupKey jobID st.jobs with
  | none => (.errJobNotFound, st, false)
  | some j =>
    if j.status = .finished ∨ j.status = .error ∨ j.status = .cancelled then
      (.errJobCancelled, st, false)
    else if jobID ∈ st.cancelFuncs then
      (.ok,
       { st with jobs := insertKey jobID { j with status := .cancelled, updatedAt := now } st.jobs },
       true)
    else (.errJobCancelled, st, false)

/-! ### TTL cleanup (internal/storage/cleanup.go)

One performCleanup iteration: snapshot the jobs whose expires_at lies
strictly before the observed now, then for each delete its absolute-path
artifact files from disk (a missing file is logged and skipped), its
publications from the publications map, and the job itself.  The disk is
modelled as the list of existing file paths. -/

/-- Model of filepath.IsAbs on Unix: the path starts with a slash. -/
def isAbs (path : String) : Bool := (chars path).head? == some '/'

/-- storage.cleanupJob on one job: remove the absolute-path files of its
publications from disk (removing an absent file is the logged no-op),
then drop its publications and the job entry. -/
def cleanupJob (acc : Store × List String) (job : Job) : Store × List String :=
  let files := job.publications.foldl
    (fun fs pub => if isAbs pub.filename then fs.filter (fun f => !(f == pub.filename)) else fs)
    acc.2
  let pubs := job.publications.foldl (fun ps pub => eraseKey pub.uuid ps) acc.1.publications
  ({ acc.1 with publications := pubs, jobs := eraseKey job.uuid acc.1.jobs }, files)

/-- storage.getExpiredJobs: the stored jobs with expires_at strictly
before now. -/
def getExpiredJobs (st : Store) (now : ℚ) : List Job :=
  (st.jobs.map Prod.snd).filter fun j => decide (j.expiresAt < now)

/-- storage.performCleanup: one sweep iteration over the expired-jobs
snapshot. -/
def performCleanup (st : Store) (files : List String) (now : ℚ) : Store × List String :=
  (getExpiredJobs st now).foldl cleanupJob (st, files)

end storage

/-! ## The scheduler (service.Job.Enqueue)

State: the registry, the bounded job channel modelled as a list bounded
by cfg queueSize, and the closed flag.  Wall time and context
cancellation are explicit arguments.  In Go the final nonblocking send is
a select whose ready cases race; the model resolves the race by trying
the send first when the context is live, which is the only configuration
any theorem below exercises (ctxDone = false). -/

namespace service

/-- The configuration fields Enqueue reads. -/
structure Config where
  queueSize : Nat
  ttl : ℚ
deriving Repr

/-- Scheduler state. -/
structure SvcState where
  store : storage.Store
  jobQueue : List Job
  closed : Bool
deriving Repr

/-- Outcome of Enqueue; the error constructors are errs.ErrServiceClosed,
the wrapped context error, and errs.ErrJobQueueFull. -/
inductive EnqueueOutcome where
  | ok (job : Job)
  | alreadyExists (job : Job)
  | errServiceClosed
  | enqueueCancelled
  | errJobQueueFull
deriving DecidableEq, Repr

/-- The Job record Enqueue constructs: status starting, created and
updated now, expiring at now plus the configured TTL, everything else
zero. -/
def newJob (cfg : Config) (now : ℚ) (url preset : String) : Job :=
  { uuid := gen.UUIDv5 url preset, url := url, preset := preset,
    status := .starting, progress := 0, publications := [], error := "",
    estimatedEta := 0, estimatedSize := 0, totalSize := 0,
    createdAt := now, updatedAt := now, expiresAt := now + cfg.ttl }

/-- The no-duplicate tail of Enqueue: build the fresh Job, store it, then
attempt the nonblocking queue send; on a full queue the job is moved to
error with the message "job queue is full" and queue-full is returned. -/
def enqueueNew (cfg : Config) (st : SvcState) (now : ℚ) (ctxDone : Bool)
    (url preset : String) : EnqueueOutcome × SvcState :=
  let job : Job := newJob cfg now url preset
  let st₁ := { st with store := storage.SetJob st.store job }
  if ¬ctxDone ∧ st₁.jobQueue.length < cfg.queueSize then
    (.ok job, { st₁ with jobQueue := st₁.jobQueue ++ [job] })
  else if ctxDone then (.enqueueCancelled, st₁)
  else
    (.errJobQueueFull,
     { st₁ with
       store := storage.UpdateJobStatusPtr st₁.store job.uuid .error 0 "job queue is full" now })

/-- service Job.Enqueue: refuse when closed, normalize the url (through
the net/url oracle pss), return an existing non-errored duplicate with
the already-exists signal, otherwise create and dispatch. -/
def Enqueue (cfg : Config) (pss : String → Option String) (st : SvcState) (now : ℚ)
    (ctxDone : Bool) (url preset : String) : EnqueueOutcome × SvcState :=
  if st.closed then (.errServiceClosed, st)
  else
    let url := urls.Normalize pss url
    match storage.GetJobByURLAndPreset pss st.store url preset with
    | some j =>
      if j.status ≠ .error then (.alreadyExists j, st)
      else enqueueNew cfg st now ctxDone url preset
    | none => enqueueNew cfg st now ctxDone url preset

end service

/-! ## yt-dlp stdout parsing (internal/downloader)

ParseYtdlpStdout scans the buffered stdout line by line: a non-empty line
that json.Unmarshal accepts appends one ResultJSON; otherwise a line
matching the filepath regular expression, case-insensitive
caret, one character outside left-brace/left-bracket/newline, any
characters, a dot, one to six ASCII alphanumerics, dollar,
becomes the filename of the most recently appended result (and is
dropped when no result exists yet); every other line is skipped.
json.Unmarshal on the trimmed line is an external call and is passed in
as jsonDec; the regular expression is implemented concretely. -/

namespace downloader

/-- The fields of downloader.ResultJSON that the embedded code reads or
writes; the remaining metadata fields play no role in the parser, which
only ever assigns filename. -/
structure ResultJSON where
  id : String
  title : String
  extractor : String
  filename : String
deriving DecidableEq, Repr

/-- One character class of the regex extension: ASCII letter or digit
(the case-insensitive flag turns the lowercase range into both cases). -/
def isExtCh (c : Char) : Bool :=
  ('a' ≤ c && c ≤ 'z') || ('A' ≤ c && c ≤ 'Z') || ('0' ≤ c && c ≤ '9')

/-- Test whether the reversed remainder r of a line decomposes as
extension (k alphanumerics), a dot, then a middle part free of newlines;
one such k in 1..6 makes the regex match. -/
def dotExtAt (r : List Char) (k : Nat) : Bool :=
  decide (k < r.length) && (r.take k).all isExtCh && (r.get? k == some '.') &&
  !((r.drop (k + 1)).contains '\n')

/-- Model of reFilepath: the first character is none of left brace, left
bracket, newline, and the rest ends in a dot followed by one to six
alphanumerics, with no newline in between. -/
def reFilepathMatch (s : String) : Bool :=
  match chars s with
  | [] => false
  | c :: rest =>
    !(c == Char.ofNat 123 || c == Char.ofNat 91 || c == '\n') &&
    [1, 2, 3, 4, 5, 6].any fun k => dotExtAt rest.reverse k

/-- One scanner step of ParseYtdlpStdout on an accumulated result list and
the next raw line. -/
def ytStep (jsonDec : String → Option ResultJSON) (res : List ResultJSON)
    (rawLine : String) : List ResultJSON :=
  let line := goTrimSpace rawLine
  if line = "" then res
  else
    match jsonDec line with
    | some r => res ++ [r]
    | none =>
      if reFilepathMatch line then
        match res.getLast? with
        | none => res
        | some last => res.dropLast ++ [{ last with filename := line }]
      else res

/-- downloader.ParseYtdlpStdout (its error result is always nil and is
omitted). -/
def ParseYtdlpStdout (jsonDec : String → Option ResultJSON) (stdout : String) :
    List ResultJSON :=
  (goSplitLines stdout).foldl (ytStep jsonDec) []

end downloader

/-! ## SHA-256 sums manifest parsing (internal/depmanager)

Manager.ParseSHASums splits the manifest on newlines; a line that trims
to something with exactly two whitespace-separated fields whose first
field has byte length 64 adds filename to hash to the accumulated map,
every other line is silently skipped, and the function never fails.  The
map accumulates across calls (m.shaSums), which is the state threaded
through here. -/

namespace depmanager

/-- One line step of ParseSHASums. -/
def parseLine (m : List (String × String)) (rawLine : String) : List (String × String) :=
  let line := goTrimSpace rawLine
  if line = "" then m
  else
    let parts := goFields line
    if parts.length ≠ 2 then m
    else
      let hash := parts.getD 0 ""
      let filename := parts.getD 1 ""
      if goLen hash ≠ 64 then m
      else insertKey filename hash m

/-- Manager.ParseSHASums over the accumulated checksum map. -/
def ParseSHASums (shaSums : List (String × String)) (content : String) :
    List (String × String) :=
  (goSplitLines content).foldl parseLine shaSums

/-- A manifest line in the "hash, two spaces, filename" layout the spec
describes. -/
def manifestLine (hash filename : String) : String := hash ++ "  " ++ filename

end depmanager

/-! ## Aliasing models for the read-clone claim

Whether a registry read can leak mutable state to the caller depends on
Go aliasing, so the two storage variants are modelled with explicit
heaps.  For the pointer variant the jobs map stores references into a
job heap and GetJobByID hands out the reference itself.  For the value
variant the only state shared between a stored Job value and a returned
copy is the publications backing array, modelled as a reference into a
slice heap; copyJob allocates a fresh array for a non-empty slice
exactly as the source does. -/

namespace storageptr

/-- Pointer-variant registry: the map stores references into the job
heap. -/
structure PtrState where
  heap : List Job
  jobs : List (String × Nat)
deriving Repr

/-- Pointer-variant GetJobByID: the caller receives the stored
reference. -/
def GetJobByID (st : PtrState) (id : String) : Option Nat :=
  lookupKey id st.jobs

/-- Dereference a job pointer. -/
def readJob (st : PtrState) (r : Nat) : Option Job :=
  st.heap.get? r

/-- A caller mutating a field through a job pointer. -/
def writeJob (st : PtrState) (r : Nat) (j : Job) : PtrState :=
  { st with heap := st.heap.set r j }

end storageptr

namespace storageval

/-- A stored Job of the value variant, with its publications slice as a
reference into the slice heap (none is the nil slice); the scalar fields
are copied by Go's struct assignment and carry no sharing, so only the
ones claims inspect are kept. -/
structure JobV where
  uuid : String
  status : JobStatus
  progress : Int
  error : String
  pubsRef : Option Nat
deriving DecidableEq, Repr

/-- Value-variant registry state: the slice heap of publication backing
arrays and the jobs map of Job values. -/
structure ValState where
  pubHeap : List (List Publication)
  jobs : List (String × JobV)
deriving Repr

/-- Contents of a publications slice. -/
def sliceAt (h : List (List Publication)) : Option Nat → List Publication
  | none => []
  | some r => (h.get? r).getD []

/-- storage.copyJob: when the publications slice is non-empty, allocate a
fresh backing array with the same contents and point the copy at it;
otherwise return the job unchanged. -/
def copyJob (st : ValState) (j : JobV) : JobV × ValState :=
  let arr := sliceAt st.pubHeap j.pubsRef
  if 0 < arr.length then
    ({ j with pubsRef := some st.pubHeap.length }, { st with pubHeap := st.pubHeap ++ [arr] })
  else (j, st)

/-- Value-variant storage.GetJobByID: look up and hand back copyJob of the
stored value. -/
def GetJobByID (st : ValState) (id : String) : Option JobV × ValState :=
  match lookupKey id st.jobs with
  | none => (none, st)
  | some j =>
    let (jc, st₂) := copyJob st j
    (some jc, st₂)

/-- A caller mutating entry i of a publications slice it holds (writes
past the slice length do nothing, as they would panic in Go rather than
alias). -/
def writeSlice (st : ValState) (r i : Nat) (p : Publication) : ValState :=
  { st with pubHeap := st.pubHeap.set r (((st.pubHeap.get? r).getD []).set i p) }

/-- Well-formedness: every stored publications reference points into the
slice heap. -/
def wfRefs (st : ValState) : Prop :=
  ∀ pr ∈ st.jobs, ∀ r ∈ pr.2.pubsRef, r < st.pubHeap.length

end storageval

/-! ## Concrete fixtures used by counterexamples and witnesses -/

/-- A json.Unmarshal oracle that accepts nothing; concrete instantiations
of the parser theorems use it for inputs that are not JSON. -/
def jsonDecNone : String → Option downloader.ResultJSON := fun _ => none

/-- A net/url oracle for concrete instantiations.  The only oracle values
any theorem below evaluates are at the plain one-letter paths "a" and
"b", for which Go's url.Parse succeeds and URL.String returns the input
unchanged, exactly as this stand-in does; it is not a model of net/url
on any other input, and no theorem consults it elsewhere. -/
def urlIdOracle : String → Option String := fun s => some s

/-- A scheduler configuration with a zero-capacity queue (every send finds
the channel full). -/
def cfgQ0 : service.Config := ⟨0, 10⟩

/-- The empty scheduler state. -/
def svcEmpty : service.SvcState := ⟨⟨[], [], []⟩, [], false⟩

/-- A job sitting in downloading with an empty error message, as a worker
would leave it mid-flight. -/
def jobDownloading : Job :=
  { uuid := "j1", url := "u", preset := "p", status := .downloading, progress := 10,
    publications := [], error := "", estimatedEta := 0, estimatedSize := 0,
    totalSize := 0, createdAt := 0, updatedAt := 0, expiresAt := 100 }

/-- Registry holding jobDownloading with its cancel handle registered. -/
def stCancel : storage.Store := ⟨[("j1", jobDownloading)], [], ["j1"]⟩

/-- A job with stored progress 50 and estimated_eta 0. -/
def jobHalf : Job :=
  { uuid := "j4", url := "u", preset := "p", status := .downloading, progress := 50,
    publications := [], error := "", estimatedEta := 0, estimatedSize := 0,
    totalSize := 0, createdAt := 0, updatedAt := 0, expiresAt := 100 }

/-- Registry holding jobHalf. -/
def stHalf : storage.Store := ⟨[("j4", jobHalf)], [], []⟩

/-- A job stored behind a pointer for the pointer-variant read model. -/
def jobPtr : Job :=
  { uuid := "j9", url := "u", preset := "p", status := .starting, progress := 0,
    publications := [], error := "", estimatedEta := 0, estimatedSize := 0,
    totalSize := 0, createdAt := 0, updatedAt := 0, expiresAt := 100 }

/-- Pointer-variant registry holding jobPtr at reference 0. -/
def stPtr : storageptr.PtrState := ⟨[jobPtr], [("j9", 0)]⟩

/-- A parsed extractor result with no filename assigned yet. -/
def rsn : downloader.ResultJSON := ⟨"vid-123", "T", "x", ""⟩

/-- True when a string contains no Go whitespace at all (so trimming,
line-splitting and field-splitting leave it atomic). -/
def wsFree (s : String) : Bool := (chars s).all fun c => !goIsSpace c

/-- An artifact file at an absolute path. -/
def pubExp : Publication := ⟨"pe", "i", "t", "/tmp/a.mp4", 5⟩

/-- A value-variant stored job whose publications slice is heap cell 0. -/
def jobV0 : storageval.JobV := ⟨"jv", .downloading, 10, "", some 0⟩

/-- A value-variant registry holding jobV0 with a one-element slice
heap. -/
def stVal : storageval.ValState := ⟨[[⟨"pv", "i", "t", "/tmp/v.mp4", 7⟩]], [("jv", jobV0)]⟩

/-- An expired job owning pubExp. -/
def jobExp : Job :=
  { jobDownloading with uuid := "je", expiresAt := 1, publications := [pubExp] }

/-- A job that has not yet expired. -/
def jobLive : Job := { jobDownloading with uuid := "jl", expiresAt := 9 }

/-- Registry holding the expired and the live job with pubExp stored. -/
def stSweep : storage.Store := ⟨[("je", jobExp), ("jl", jobLive)], [("pe", pubExp)], []⟩

/-- The disk contents for the sweep witness. -/
def filesSweep : List String := ["/tmp/a.mp4", "/tmp/keep.mp4"]

/-! ## Helper lemmas -/

theorem lookupKey_insert_self (k : String) (v : α) (l : List (String × α)) :
    lookupKey k (insertKey k v l) = some v := by
  simp [insertKey, lookupKey]

theorem lookupKey_erase_ne (k k₂ : String) (l : List (String × α)) (h : k ≠ k₂) :
    lookupKey k₂ (eraseKey k l) = lookupKey k₂ l := by
  induction l with
  | nil => rfl
  | cons p rest ih =>
    obtain ⟨pk, pv⟩ := p
    by_cases hp : pk = k
    · subst hp
      have h₁ : eraseKey pk ((pk, pv) :: rest) = eraseKey pk rest := by
        simp [eraseKey, List.filter_cons]
      rw [h₁, ih, lookupKey, if_neg h]
    · have h₁ : eraseKey k ((pk, pv) :: rest) = (pk, pv) :: eraseKey k rest := by
        simp [eraseKey, List.filter_cons, hp]
      rw [h₁, lookupKey, lookupKey]
      by_cases hk : pk = k₂
      · simp [hk]
      · simp [hk, ih]

theorem lookupKey_insert_ne (k k₂ : String) (v : α) (l : List (String × α)) (h : k ≠ k₂) :
    lookupKey k₂ (insertKey k v l) = lookupKey k₂ l := by
  simp [insertKey, lookupKey, h]
  exact lookupKey_erase_ne k k₂ l h

theorem dropWhile_dropWhile (p : Char → Bool) (l : List Char) :
    (l.dropWhile p).dropWhile p = l.dropWhile p := by
  induction l with
  | nil => rfl
  | cons c rest ih =>
    by_cases hc : p c
    · simpa [List.dropWhile, hc] using ih
    · simp [List.dropWhile, hc]

theorem head_dropWhile_false (p : Char → Bool) (l : List Char) :
    ∀ c ∈ (l.dropWhile p).head?, p c = false := by
  induction l with
  | nil => simp [List.dropWhile]
  | cons c rest ih =>
    by_cases hc : p c
    · simpa [List.dropWhile, hc] using ih
    · simp [List.dropWhile, hc]

theorem dropWhile_eq_self_of_head (p : Char → Bool) (l : List Char)
    (h : ∀ c ∈ l.head?, p c = false) : l.dropWhile p = l := by
  cases l with
  | nil => rfl
  | cons c rest => simp [List.dropWhile, h c (by simp)]

theorem trimSpaceCh_idem (l : List Char) : trimSpaceCh (trimSpaceCh l) = trimSpaceCh l := by
  unfold trimSpaceCh
  have h₁ : ((l.dropWhile goIsSpace).reverse.dropWhile goIsSpace).reverse.dropWhile goIsSpace
      = ((l.dropWhile goIsSpace).reverse.dropWhile goIsSpace).reverse := by
    apply dropWhile_eq_self_of_head
    intro c hc
    set A := l.dropWhile goIsSpace with hA
    rcases hB : A.reverse.dropWhile goIsSpace with _ | ⟨b, bs⟩
    · simp [hB] at hc
    · have hsplit : A.reverse.takeWhile goIsSpace ++ (b :: bs) = A.reverse := by
        rw [← hB]; exact List.takeWhile_append_dropWhile goIsSpace A.reverse
      have hAeq : A = (b :: bs).reverse ++ (A.reverse.takeWhile goIsSpace).reverse := by
        have := congrArg List.reverse hsplit
        simpa [List.reverse_append] using this.symm
      have hchead : c ∈ A.head? := by
        rw [hB] at hc
        simp only [List.reverse_cons] at hc
        rw [hAeq]
        rcases hrev : (b :: bs).reverse with _ | ⟨x, xs⟩
        · simp at hrev
        · simp only [List.reverse_cons] at hrev
          simp only [hrev] at hc ⊢
          simpa using hc
      exact head_dropWhile_false goIsSpace l c (by rw [← hA]; exact hchead)
  rw [h₁, List.reverse_reverse, dropWhile_dropWhile]

theorem goTrimSpace_idem (s : String) : goTrimSpace (goTrimSpace s) = goTrimSpace s := by
  simp [goTrimSpace, chars, ofChars, trimSpaceCh_idem]

theorem normalize_trim (pss : String → Option String) (raw : String) :
    urls.Normalize pss (goTrimSpace raw) = urls.Normalize pss raw := by
  unfold urls.Normalize
  rw [goTrimSpace_idem]

theorem uuidNewSHA1_ne_empty (sp nm : List Nat) : uuidNewSHA1 sp nm ≠ "" := by
  unfold uuidNewSHA1
  intro h
  have h₂ := congrArg String.data h
  simp only [ofChars] at h₂
  simp at h₂

theorem gen_UUIDv5_ne_empty (a b : String) : gen.UUIDv5 a b ≠ "" :=
  uuidNewSHA1_ne_empty _ _

/-! ## C10 -/

/-- C10: calc.Progress is total and never divides by zero.  It returns 0
whenever total is non-positive; when total is positive it returns
100 * downloaded / total rounded to the nearest integer (half away from
zero, as math.Round); the result is not clamped, so Progress 3 1 = 300
exceeds 100 with downloaded above total; and calc.ETA likewise returns 0
whenever total is non-positive. -/
theorem C10_calc_progress_eta :
    (∀ d t : Int, t ≤ 0 → Calc.Progress d t = 0) ∧
    (∀ d t : Int, 0 < t → Calc.Progress d t = goRound (100 * (d : ℚ) / (t : ℚ))) ∧
    (Calc.Progress 3 1 = 300 ∧ (1 : Int) < 3 ∧ (100 : Int) < 300) ∧
    (∀ (d t : Int) (elapsed : ℚ), t ≤ 0 → Calc.ETA d t elapsed = 0) := by
  refine ⟨fun d t h => ?_, fun d t h => ?_, ⟨?_, by norm_num, by norm_num⟩,
    fun d t elapsed h => ?_⟩
  · simp [Calc.Progress, not_lt.mpr h]
  · have harg : (d : ℚ) / (t : ℚ) * 100 = 100 * (d : ℚ) / (t : ℚ) := by ring
    simp [Calc.Progress, h, harg]
  · decide
  · simp [Calc.ETA, not_lt.mpr h]

/-- C10 witness: the theorem applied at downloaded 5, total 0 and at a
concrete ETA input. -/
theorem C10_calc_progress_eta_witness :
    Calc.Progress 5 0 = 0 ∧ Calc.ETA 5 0 7 = 0 :=
  ⟨C10_calc_progress_eta.1 5 0 le_rfl, C10_calc_progress_eta.2.2.2 5 0 7 le_rfl⟩

/-! ## C5 -/

/-- C5 counterexample: with FingerprintID taken as the claim defines it,
the v5 UUID of the un-normalized concatenation, the identity fails on
the url " a": normalize trims it to "a", which Go's url.Parse and
URL.String return unchanged (the one oracle value consulted here, which
urlIdOracle reproduces), and the two fingerprints are distinct UUIDs
computed through the embedded SHA-1.  The amended theorem's last
conjunct shows the refutation does not depend on the oracle: for every
net/url behavior, the universally quantified claim is false. -/
theorem C5_counterexample :
    gen.UUIDv5 " a" "x" ≠ gen.UUIDv5 (urls.Normalize urlIdOracle " a") "x" := by
  decide

/-- C5 amended: gen.UUIDv5 itself performs no normalization, so the
identity FingerprintID(url, preset) = FingerprintID(normalize(url),
preset) holds exactly for urls that normalize leaves fixed, in
particular for every url the system stores (Enqueue and the registry
lookup both normalize before hashing); and whatever parse/re-serialize
behavior net/url contributes, the identity cannot hold for all urls,
since " a" and "a" normalize alike while their fingerprints differ. -/
theorem C5_fingerprint_normalized :
    (∀ (pss : String → Option String) (u p : String),
       urls.Normalize pss u = u →
       gen.UUIDv5 u p = gen.UUIDv5 (urls.Normalize pss u) p) ∧
    (∀ pss : String → Option String,
       ¬∀ u p, gen.UUIDv5 u p = gen.UUIDv5 (urls.Normalize pss u) p) := by
  constructor
  · intro pss u p h
    rw [h]
  · intro pss h
    have h₁ := h " a" "x"
    have h₂ := h "a" "x"
    have heq : urls.Normalize pss " a" = urls.Normalize pss "a" := by
      rw [← normalize_trim pss " a"]
      have htr : goTrimSpace " a" = "a" := by decide
      rw [htr]
    have hcontra : gen.UUIDv5 " a" "x" = gen.UUIDv5 "a" "x" := by
      rw [h₁, heq, ← h₂]
    exact absurd hcontra (by decide)

/-- C5 witness: the fixed-point conjunct applied with the identity oracle
at the normalize-fixed url "a" (where real net/url also returns "a"). -/
theorem C5_fingerprint_normalized_witness :
    urls.Normalize urlIdOracle "a" = "a" ∧
    gen.UUIDv5 "a" "x" = gen.UUIDv5 (urls.Normalize urlIdOracle "a") "x" :=
  ⟨by decide, C5_fingerprint_normalized.1 urlIdOracle "a" "x" (by decide)⟩

/-! ## C1 and C2 helper lemmas about Enqueue's branches -/

/-- Enqueue reduces to the create-and-dispatch tail when the service is
open and any stored duplicate is in error status.  The idempotence
hypothesis states the property of net/url the lookup relies on: Enqueue
normalizes once and GetJobByURLAndPreset normalizes again, so their keys
agree exactly when normalizing a normalized url is a no-op. -/
theorem enqueue_no_live_dup (cfg : service.Config) (pss : String → Option String)
    (st : service.SvcState) (now : ℚ) (ctxDone : Bool) (u p : String)
    (hidem : urls.Normalize pss (urls.Normalize pss u) = urls.Normalize pss u)
    (hclosed : st.closed = false)
    (hdup : ∀ j, lookupKey (gen.UUIDv5 (urls.Normalize pss u) p) st.store.jobs = some j →
      j.status = .error) :
    service.Enqueue cfg pss st now ctxDone u p =
      service.enqueueNew cfg st now ctxDone (urls.Normalize pss u) p := by
  unfold service.Enqueue
  rw [hclosed]
  simp only [Bool.false_eq_true, if_false]
  unfold storage.GetJobByURLAndPreset
  rw [hidem]
  cases hr : lookupKey (gen.UUIDv5 (urls.Normalize pss u) p) st.store.jobs with
  | none => rfl
  | some j => simp [hdup j hr]

/-- With queue space and a live context, the create-and-dispatch tail
stores the new job and appends it to the queue. -/
theorem enqueueNew_ok (cfg : service.Config) (st : service.SvcState) (now : ℚ)
    (u p : String) (hsp : st.jobQueue.length < cfg.queueSize) :
    service.enqueueNew cfg st now false u p =
      (.ok (service.newJob cfg now u p),
       { st with store := storage.SetJob st.store (service.newJob cfg now u p),
                 jobQueue := st.jobQueue ++ [service.newJob cfg now u p] }) := by
  unfold service.enqueueNew
  simp [hsp]

/-- With the queue full and a live context, the create-and-dispatch tail
stores the new job, marks it errored through the status update, and
reports queue-full. -/
theorem enqueueNew_full (cfg : service.Config) (st : service.SvcState) (now : ℚ)
    (u p : String) (hq : ¬st.jobQueue.length < cfg.queueSize) :
    service.enqueueNew cfg st now false u p =
      (.errJobQueueFull,
       { st with
         store := storage.UpdateJobStatusPtr
           (storage.SetJob st.store (service.newJob cfg now u p))
           (service.newJob cfg now u p).uuid JobStatus.error 0 "job queue is full" now }) := by
  unfold service.enqueueNew
  simp [hq]

/-- The status update applied to a freshly created job on the queue-full
path: status error, the queue-full message, updated_at now, everything
else as created. -/
theorem applyUpdatePassed_newJob (cfg : service.Config) (now now₂ : ℚ) (u p : String) :
    storage.applyUpdatePassed (service.newJob cfg now u p) .error 0 "job queue is full" now₂ =
      { service.newJob cfg now u p with
        status := .error, updatedAt := now₂, error := "job queue is full" } := by
  rfl

/-! ## C1 -/

/-- C1: when the registry holds a job under FingerprintID(normalize(u),
preset) whose status is not error, Enqueue returns that job with the
already-exists signal and changes nothing: no job is created, nothing is
pushed.  Consequently the same Enqueue twice in quick succession creates
exactly one job, extends the queue by exactly that one entry (one worker
invocation), and the second call returns the first call's job with the
dedup signal, changing no state. -/
theorem C1_enqueue_dedup :
    (∀ (cfg : service.Config) (pss : String → Option String) (st : service.SvcState)
       (now : ℚ) (ctxDone : Bool) (u p : String) (j : Job),
       urls.Normalize pss (urls.Normalize pss u) = urls.Normalize pss u →
       st.closed = false →
       lookupKey (gen.UUIDv5 (urls.Normalize pss u) p) st.store.jobs = some j →
       j.status ≠ .error →
       service.Enqueue cfg pss st now ctxDone u p = (.alreadyExists j, st)) ∧
    (∀ (cfg : service.Config) (pss : String → Option String) (st : service.SvcState)
       (now now₂ : ℚ) (u p : String),
       urls.Normalize pss (urls.Normalize pss u) = urls.Normalize pss u →
       st.closed = false →
       lookupKey (gen.UUIDv5 (urls.Normalize pss u) p) st.store.jobs = none →
       st.jobQueue.length < cfg.queueSize →
       ∃ job st₁,
         service.Enqueue cfg pss st now false u p = (.ok job, st₁) ∧
         job.uuid = gen.UUIDv5 (urls.Normalize pss u) p ∧
         job.status = .starting ∧
         st₁.store.jobs = insertKey job.uuid job st.store.jobs ∧
         st₁.jobQueue = st.jobQueue ++ [job] ∧
         st₁.closed = st.closed ∧
         service.Enqueue cfg pss st₁ now₂ false u p = (.alreadyExists job, st₁)) := by
  constructor
  · intro cfg pss st now ctxDone u p j hidem hclosed hdup hstat
    unfold service.Enqueue
    rw [hclosed]
    simp only [Bool.false_eq_true, if_false]
    unfold storage.GetJobByURLAndPreset
    rw [hidem, hdup]
    simp [hstat]
  · intro cfg pss st now now₂ u p hidem hclosed hnodup hspace
    have hne : gen.UUIDv5 (urls.Normalize pss u) p ≠ "" := gen_UUIDv5_ne_empty _ _
    have h₁ : service.Enqueue cfg pss st now false u p =
        (.ok (service.newJob cfg now (urls.Normalize pss u) p),
         { st with
           store := storage.SetJob st.store (service.newJob cfg now (urls.Normalize pss u) p),
           jobQueue := st.jobQueue ++ [service.newJob cfg now (urls.Normalize pss u) p] }) := by
      rw [enqueue_no_live_dup cfg pss st now false u p hidem hclosed
        (fun j hj => absurd (hnodup ▸ hj) (by simp)), enqueueNew_ok cfg st now _ p hspace]
    refine ⟨service.newJob cfg now (urls.Normalize pss u) p, _, h₁, rfl, rfl, ?_, rfl, rfl, ?_⟩
    · unfold storage.SetJob
      simp [hne, service.newJob]
    · unfold service.Enqueue
      simp only [Bool.false_eq_true, if_false, hclosed]
      unfold storage.GetJobByURLAndPreset
      rw [hidem]
      have hlook : lookupKey (gen.UUIDv5 (urls.Normalize pss u) p)
          (storage.SetJob st.store (service.newJob cfg now (urls.Normalize pss u) p)).jobs =
          some (service.newJob cfg now (urls.Normalize pss u) p) := by
        unfold storage.SetJob
        simp only [service.newJob, if_neg hne]
        exact lookupKey_insert_self _ _ _
      rw [hlook]
      simp [service.newJob]

/-- C1 witness: the dedup conjunct applied to the empty scheduler with a
two-slot queue at url " a", preset "x", under the identity parse-serialize
oracle. -/
theorem C1_enqueue_dedup_witness :
    ∃ job st₁,
      service.Enqueue ⟨2, 10⟩ urlIdOracle svcEmpty 0 false " a" "x" = (.ok job, st₁) ∧
      job.uuid = gen.UUIDv5 (urls.Normalize urlIdOracle " a") "x" ∧
      job.status = .starting ∧
      st₁.store.jobs = insertKey job.uuid job svcEmpty.store.jobs ∧
      st₁.jobQueue = svcEmpty.jobQueue ++ [job] ∧
      st₁.closed = svcEmpty.closed ∧
      service.Enqueue ⟨2, 10⟩ urlIdOracle st₁ 1 false " a" "x" = (.alreadyExists job, st₁) :=
  C1_enqueue_dedup.2 ⟨2, 10⟩ urlIdOracle svcEmpty 0 1 " a" "x" (by decide) rfl rfl (by decide)

/-! ## C2 -/

/-- C2 counterexample: with a zero-capacity queue the enqueue does go to
error and queue-full is returned, but the stored error message is the
source's "job queue is full", not the claimed "queue full". -/
theorem C2_counterexample :
    (service.Enqueue cfgQ0 urlIdOracle svcEmpty 0 false "a" "x").1 = .errJobQueueFull ∧
    (storage.GetJobByID (service.Enqueue cfgQ0 urlIdOracle svcEmpty 0 false "a" "x").2.store
        (gen.UUIDv5 "a" "x")).map Job.error = some "job queue is full" ∧
    "job queue is full" ≠ "queue full" := by
  refine ⟨by decide, by decide, by decide⟩

/-- C2 amended: when the queue is full, the context live and no
non-errored duplicate stored, Enqueue still inserts the newly created
job into the registry, moves it to error with the message "job queue is
full" (the source's wording of "queue full") via the status update,
leaves the queue untouched and returns the queue-full error. -/
theorem C2_queue_full (cfg : service.Config) (pss : String → Option String)
    (st : service.SvcState) (now : ℚ) (u p : String)
    (hidem : urls.Normalize pss (urls.Normalize pss u) = urls.Normalize pss u)
    (hclosed : st.closed = false)
    (hdup : ∀ j, lookupKey (gen.UUIDv5 (urls.Normalize pss u) p) st.store.jobs = some j →
      j.status = .error)
    (hfull : cfg.queueSize ≤ st.jobQueue.length) :
    (service.Enqueue cfg pss st now false u p).1 = .errJobQueueFull ∧
    (service.Enqueue cfg pss st now false u p).2.jobQueue = st.jobQueue ∧
    ∃ j, lookupKey (gen.UUIDv5 (urls.Normalize pss u) p)
        (service.Enqueue cfg pss st now false u p).2.store.jobs = some j ∧
      j.uuid = gen.UUIDv5 (urls.Normalize pss u) p ∧
      j.url = urls.Normalize pss u ∧ j.preset = p ∧ j.createdAt = now ∧
      j.status = .error ∧ j.error = "job queue is full" := by
  have hne : gen.UUIDv5 (urls.Normalize pss u) p ≠ "" := gen_UUIDv5_ne_empty _ _
  have hq : ¬st.jobQueue.length < cfg.queueSize := not_lt.mpr hfull
  rw [enqueue_no_live_dup cfg pss st now false u p hidem hclosed hdup,
    enqueueNew_full cfg st now _ p hq]
  refine ⟨rfl, rfl, ?_⟩
  have hjobs : (storage.SetJob st.store (service.newJob cfg now (urls.Normalize pss u) p)).jobs =
      insertKey (gen.UUIDv5 (urls.Normalize pss u) p)
        (service.newJob cfg now (urls.Normalize pss u) p) st.store.jobs := by
    unfold storage.SetJob
    simp [hne, service.newJob]
  refine ⟨storage.applyUpdatePassed (service.newJob cfg now (urls.Normalize pss u) p)
    .error 0 "job queue is full" now, ?_, ?_⟩
  · show lookupKey _ (storage.UpdateJobStatusPtr _ _ .error 0 "job queue is full" now).jobs = _
    unfold storage.UpdateJobStatusPtr
    have huuid : (service.newJob cfg now (urls.Normalize pss u) p).uuid =
        gen.UUIDv5 (urls.Normalize pss u) p := rfl
    rw [huuid, hjobs, lookupKey_insert_self]
    exact lookupKey_insert_self _ _ _
  · rw [applyUpdatePassed_newJob]
    exact ⟨rfl, rfl, rfl, rfl, rfl, rfl⟩

/-- C2 witness for the amended theorem: the zero-capacity configuration on
the empty state under the identity parse-serialize oracle. -/
theorem C2_queue_full_witness :
    (service.Enqueue cfgQ0 urlIdOracle svcEmpty 0 false "b" "x").1 = .errJobQueueFull ∧
    (service.Enqueue cfgQ0 urlIdOracle svcEmpty 0 false "b" "x").2.jobQueue =
      svcEmpty.jobQueue ∧
    ∃ j, lookupKey (gen.UUIDv5 (urls.Normalize urlIdOracle "b") "x")
        (service.Enqueue cfgQ0 urlIdOracle svcEmpty 0 false "b" "x").2.store.jobs = some j ∧
      j.uuid = gen.UUIDv5 (urls.Normalize urlIdOracle "b") "x" ∧
      j.url = urls.Normalize urlIdOracle "b" ∧ j.preset = "x" ∧ j.createdAt = 0 ∧
      j.status = .error ∧ j.error = "job queue is full" :=
  C2_queue_full cfgQ0 urlIdOracle svcEmpty 0 "b" "x" (by decide) rfl
    (fun j hj => by simp [lookupKey] at hj) (by decide)

/-! ## C4 -/

/-- C4 counterexample: on a job with stored progress 50 and estimated_eta
0, an update passing progress 0 still recomputes estimated_eta (to
elapsed * (100/50 - 1) = 10), refuting "recomputes exactly when the
passed progress > 0": the passed progress is 0 here, yet the eta
changed. -/
theorem C4_counterexample :
    (storage.GetJobByID stHalf "j4").map Job.estimatedEta = some 0 ∧
    (storage.GetJobByID (storage.UpdateJobStatus stHalf "j4" .downloading 0 "" 10) "j4").map
      Job.estimatedEta = some 10 := by
  constructor
  · decide
  · decide

/-- C4 amended: UpdateStatus on a known id sets status and updated_at,
overwrites progress iff the passed progress is non-zero, overwrites the
error message iff non-empty, and recomputes
estimated_eta = elapsed_since_created * (100/progress - 1) exactly when
the job's post-update progress is positive (the stored progress when the
passed one is zero) - not exactly when the passed progress is positive;
an empty or unknown id logs and leaves the registry unchanged. -/
theorem C4_update_status :
    (∀ (st : storage.Store) (id : String) (status : JobStatus) (progress : Int)
       (errorMsg : String) (now : ℚ),
       id = "" ∨ lookupKey id st.jobs = none →
       storage.UpdateJobStatus st id status progress errorMsg now = st) ∧
    (∀ (st : storage.Store) (id : String) (j : Job) (status : JobStatus) (progress : Int)
       (errorMsg : String) (now : ℚ),
       id ≠ "" → lookupKey id st.jobs = some j →
       storage.UpdateJobStatus st id status progress errorMsg now =
         { st with
           jobs := insertKey id
             { j with
               status := status
               updatedAt := now
               progress := if progress ≠ 0 then progress else j.progress
               error := if errorMsg ≠ "" then errorMsg else j.error
               estimatedEta :=
                 if 0 < (if progress ≠ 0 then progress else j.progress) then
                   (now - j.createdAt) *
                     (100 / ((if progress ≠ 0 then progress else j.progress) : ℚ) - 1)
                 else j.estimatedEta }
             st.jobs }) := by
  constructor
  · intro st id status progress errorMsg now h
    unfold storage.UpdateJobStatus
    rcases h with h | h
    · rw [if_pos h]
    · by_cases hid : id = ""
      · rw [if_pos hid]
      · rw [if_neg hid, h]
  · intro st id j status progress errorMsg now hid hj
    unfold storage.UpdateJobStatus
    rw [if_neg hid, hj]
    unfold storage.applyUpdate
    by_cases hp : progress ≠ 0 <;> by_cases he : errorMsg ≠ "" <;>
      simp only [hp, he, ne_eq, not_false_eq_true, not_true_eq_false, ite_true,
        ite_false, if_true, if_false] <;>
      split <;> rename_i hc <;> simp [hc]

/-- C4 witness: the amended theorem applied on stHalf with passed
progress 0 and an empty message at now = 10: only status, updated_at and
(because the stored progress 50 is positive) estimated_eta change. -/
theorem C4_update_status_witness :
    storage.UpdateJobStatus stHalf "j4" .downloading 0 "" 10 =
      { stHalf with
        jobs := insertKey "j4"
          { jobHalf with
            status := .downloading
            updatedAt := 10
            progress := if (0 : Int) ≠ 0 then 0 else jobHalf.progress
            error := if "" ≠ "" then "" else jobHalf.error
            estimatedEta :=
              if 0 < (if (0 : Int) ≠ 0 then 0 else jobHalf.progress) then
                ((10 : ℚ) - jobHalf.createdAt) *
                  (100 / ((if (0 : Int) ≠ 0 then 0 else jobHalf.progress) : ℚ) - 1)
              else jobHalf.estimatedEta }
          stHalf.jobs } :=
  C4_update_status.2 stHalf "j4" jobHalf .downloading 0 "" 10 (by decide) (by decide)

/-- Projections of the value-variant status update: the status and
updated_at are always overwritten, the error message iff non-empty. -/
theorem applyUpdate_fields (j : Job) (status : JobStatus) (progress : Int)
    (errorMsg : String) (now : ℚ) :
    (storage.applyUpdate j status progress errorMsg now).status = status ∧
    (storage.applyUpdate j status progress errorMsg now).updatedAt = now ∧
    (storage.applyUpdate j status progress errorMsg now).error =
      (if errorMsg ≠ "" then errorMsg else j.error) := by
  unfold storage.applyUpdate
  by_cases h₁ : progress ≠ 0 <;> by_cases h₂ : errorMsg ≠ "" <;>
    simp only [h₁, h₂, ite_true, ite_false, if_true, if_false, ne_eq,
      not_false_eq_true, not_true_eq_false] <;>
    refine ⟨?_, ?_, ?_⟩ <;> (split <;> rfl)

/-! ## C3 -/

/-- C3 counterexample: in the pointer-variant CancelJob a registered,
non-terminal job is cancelled successfully, but only status and
updated_at are written; its error message stays empty instead of
becoming "job cancelled by user". -/
theorem C3_counterexample :
    (storage.CancelJobPtr stCancel "j1" 0).1 = .ok ∧
    (lookupKey "j1" (storage.CancelJobPtr stCancel "j1" 0).2.1.jobs).map Job.status =
      some .cancelled ∧
    (lookupKey "j1" (storage.CancelJobPtr stCancel "j1" 0).2.1.jobs).map Job.error =
      some "" ∧
    ("" : String) ≠ "job cancelled by user" := by
  refine ⟨by decide, by decide, by decide, by decide⟩

/-- C3 amended: Cancel(id) returns job-not-found for an absent id; the
not-cancellable error (errs.ErrJobCancelled) for a terminal job and for
a non-terminal job with no registered handle, in both cases leaving the
state unchanged and invoking nothing; and for a non-terminal job with a
registered handle it invokes the handle, after which the job's status is
cancelled with updated_at set: in the value-based registry the error
message also becomes "job cancelled by user" via the status update,
while the pointer-based variant leaves the error message unchanged.
(The success clause assumes a non-empty id, which SetJob guarantees for
every stored job.) -/
theorem C3_cancel :
    (∀ (st : storage.Store) (id : String) (now : ℚ),
       lookupKey id st.jobs = none →
       storage.CancelJob st id now = (.errJobNotFound, st, false) ∧
       storage.CancelJobPtr st id now = (.errJobNotFound, st, false)) ∧
    (∀ (st : storage.Store) (id : String) (j : Job) (now : ℚ),
       lookupKey id st.jobs = some j →
       (j.status = .finished ∨ j.status = .error ∨ j.status = .cancelled) →
       storage.CancelJob st id now = (.errJobCancelled, st, false) ∧
       storage.CancelJobPtr st id now = (.errJobCancelled, st, false)) ∧
    (∀ (st : storage.Store) (id : String) (j : Job) (now : ℚ),
       lookupKey id st.jobs = some j →
       ¬(j.status = .finished ∨ j.status = .error ∨ j.status = .cancelled) →
       id ∉ st.cancelFuncs →
       storage.CancelJob st id now = (.errJobCancelled, st, false) ∧
       storage.CancelJobPtr st id now = (.errJobCancelled, st, false)) ∧
    (∀ (st : storage.Store) (id : String) (j : Job) (now : ℚ),
       id ≠ "" →
       lookupKey id st.jobs = some j →
       ¬(j.status = .finished ∨ j.status = .error ∨ j.status = .cancelled) →
       id ∈ st.cancelFuncs →
       ((storage.CancelJob st id now).1 = .ok ∧
        (storage.CancelJob st id now).2.2 = true ∧
        lookupKey id (storage.CancelJob st id now).2.1.jobs =
          some (storage.applyUpdate j .cancelled 0 "job cancelled by user" now) ∧
        (storage.applyUpdate j .cancelled 0 "job cancelled by user" now).status =
          .cancelled ∧
        (storage.applyUpdate j .cancelled 0 "job cancelled by user" now).error =
          "job cancelled by user" ∧
        (storage.applyUpdate j .cancelled 0 "job cancelled by user" now).updatedAt = now) ∧
       ((storage.CancelJobPtr st id now).1 = .ok ∧
        (storage.CancelJobPtr st id now).2.2 = true ∧
        lookupKey id (storage.CancelJobPtr st id now).2.1.jobs =
          some { j with status := .cancelled, updatedAt := now } ∧
        ({ j with status := .cancelled, updatedAt := now } : Job).error = j.error)) := by
  refine ⟨?_, ?_, ?_, ?_⟩
  · intro st id now h
    refine ⟨?_, ?_⟩
    · unfold storage.CancelJob
      rw [h]
    · unfold storage.CancelJobPtr
      rw [h]
  · intro st id j now hj hterm
    refine ⟨?_, ?_⟩
    · unfold storage.CancelJob
      rw [hj]
      simp [if_pos hterm]
    · unfold storage.CancelJobPtr
      rw [hj]
      simp [if_pos hterm]
  · intro st id j now hj hterm hfn
    refine ⟨?_, ?_⟩
    · unfold storage.CancelJob
      rw [hj]
      simp [if_neg hterm, hfn]
    · unfold storage.CancelJobPtr
      rw [hj]
      simp [if_neg hterm, hfn]
  · intro st id j now hid hj hterm hfn
    have hcancel : storage.CancelJob st id now =
        (.ok, storage.UpdateJobStatus st id .cancelled 0 "job cancelled by user" now, true) := by
      unfold storage.CancelJob
      rw [hj]
      simp [if_neg hterm, hfn]
    have hupd : storage.UpdateJobStatus st id .cancelled 0 "job cancelled by user" now =
        { st with
          jobs := insertKey id
            (storage.applyUpdate j .cancelled 0 "job cancelled by user" now) st.jobs } := by
      unfold storage.UpdateJobStatus
      rw [if_neg hid, hj]
    have hptr : storage.CancelJobPtr st id now =
        (.ok,
         { st with jobs := insertKey id { j with status := .cancelled, updatedAt := now } st.jobs },
         true) := by
      unfold storage.CancelJobPtr
      rw [hj]
      simp [if_neg hterm, hfn]
    refine ⟨⟨?_, ?_, ?_, ?_, ?_, ?_⟩, ?_, ?_, ?_, rfl⟩
    · rw [hcancel]
    · rw [hcancel]
    · rw [hcancel, hupd]
      exact lookupKey_insert_self _ _ _
    · exact (applyUpdate_fields j .cancelled 0 "job cancelled by user" now).1
    · simpa using (applyUpdate_fields j .cancelled 0 "job cancelled by user" now).2.2
    · exact (applyUpdate_fields j .cancelled 0 "job cancelled by user" now).2.1
    · rw [hptr]
    · rw [hptr]
    · rw [hptr]
      exact lookupKey_insert_self _ _ _

/-- C3 witness: the success clause applied to the registry holding the
mid-flight jobDownloading with its handle registered. -/
theorem C3_cancel_witness :
    ((storage.CancelJob stCancel "j1" 5).1 = .ok ∧
     (storage.CancelJob stCancel "j1" 5).2.2 = true ∧
     lookupKey "j1" (storage.CancelJob stCancel "j1" 5).2.1.jobs =
       some (storage.applyUpdate jobDownloading .cancelled 0 "job cancelled by user" 5) ∧
     (storage.applyUpdate jobDownloading .cancelled 0 "job cancelled by user" 5).status =
       .cancelled ∧
     (storage.applyUpdate jobDownloading .cancelled 0 "job cancelled by user" 5).error =
       "job cancelled by user" ∧
     (storage.applyUpdate jobDownloading .cancelled 0 "job cancelled by user" 5).updatedAt = 5) ∧
    ((storage.CancelJobPtr stCancel "j1" 5).1 = .ok ∧
     (storage.CancelJobPtr stCancel "j1" 5).2.2 = true ∧
     lookupKey "j1" (storage.CancelJobPtr stCancel "j1" 5).2.1.jobs =
       some { jobDownloading with status := .cancelled, updatedAt := 5 } ∧
     ({ jobDownloading with status := .cancelled, updatedAt := 5 } : Job).error =
       jobDownloading.error) :=
  C3_cancel.2.2.2 stCancel "j1" jobDownloading 5 (by decide) (by decide) (by decide)
    (by decide)

/-! ## String lemmas for the manifest parser -/

theorem chars_append (a b : String) : chars (a ++ b) = chars a ++ chars b := rfl

theorem chars_eq_nil_iff (s : String) : chars s = [] ↔ s = "" := by
  constructor
  · intro h
    have h₂ : s = ofChars (chars s) := rfl
    rw [h₂, h]
    rfl
  · intro h
    rw [h]
    rfl

theorem splitLinesCh_no_newline (l : List Char) (h : '\n' ∉ l) : splitLinesCh l = [l] := by
  induction l with
  | nil => rfl
  | cons c cs ih =>
    have hc : ¬c = '\n' := fun hh => h (hh ▸ List.mem_cons_self c cs)
    have ht : '\n' ∉ cs := fun hh => h (List.mem_cons_of_mem _ hh)
    simp only [splitLinesCh, if_neg hc, ih ht]

theorem head?_append_left (a b : List Char) (h : a ≠ []) : (a ++ b).head? = a.head? := by
  cases a with
  | nil => exact absurd rfl h
  | cons x xs => rfl

theorem wsFree_not_space (s : String) (h : wsFree s = true) :
    ∀ c ∈ chars s, goIsSpace c = false := by
  intro c hc
  have h₂ := List.all_eq_true.mp h c hc
  simpa using h₂

theorem not_space_ne_newline (c : Char) (h : goIsSpace c = false) : c ≠ '\n' := by
  intro hc
  rw [hc] at h
  exact absurd h (by decide)

theorem trimSpaceCh_eq_of_ends (l : List Char)
    (h₁ : ∀ c ∈ l.head?, goIsSpace c = false)
    (h₂ : ∀ c ∈ l.reverse.head?, goIsSpace c = false) :
    trimSpaceCh l = l := by
  unfold trimSpaceCh
  rw [dropWhile_eq_self_of_head _ _ h₁, dropWhile_eq_self_of_head _ _ h₂,
    List.reverse_reverse]

theorem fieldsGo_nonspace :
    ∀ (A cur rest : List Char), (∀ c ∈ A, goIsSpace c = false) →
      fieldsGo cur (A ++ rest) = fieldsGo (A.reverse ++ cur) rest := by
  intro A
  induction A with
  | nil => intro cur rest _; simp
  | cons c A₂ ih =>
    intro cur rest hA
    have hc : goIsSpace c = false := hA c (by simp)
    simp only [List.cons_append, fieldsGo, hc, Bool.false_eq_true, if_false]
    show fieldsGo (c :: cur) (A₂ ++ rest) = fieldsGo ((c :: A₂).reverse ++ cur) rest
    rw [ih (c :: cur) rest fun x hx => hA x (by simp [hx])]
    simp [List.append_assoc]

theorem fieldsGo_single (B : List Char) (hB : B ≠ [])
    (hBw : ∀ c ∈ B, goIsSpace c = false) : fieldsGo [] B = [B] := by
  have h₁ := fieldsGo_nonspace B [] [] hBw
  rw [List.append_nil] at h₁
  rw [h₁]
  simp only [fieldsGo, List.append_nil]
  rw [if_neg (by simp [hB])]
  rw [List.reverse_reverse]

theorem fieldsGo_manifest (hc fc : List Char) (hh : hc ≠ []) (hf : fc ≠ [])
    (hhw : ∀ c ∈ hc, goIsSpace c = false) (hfw : ∀ c ∈ fc, goIsSpace c = false) :
    fieldsGo [] (hc ++ ' ' :: ' ' :: fc) = [hc, fc] := by
  rw [fieldsGo_nonspace hc [] (' ' :: ' ' :: fc) hhw, List.append_nil]
  have hsp : goIsSpace ' ' = true := rfl
  simp only [fieldsGo, hsp, if_true]
  rw [if_neg (by simp [hh]), if_pos (by simp), List.reverse_reverse]
  rw [fieldsGo_single fc hf hfw]

theorem manifest_chars (h f : String) :
    chars (depmanager.manifestLine h f) = chars h ++ (' ' :: ' ' :: chars f) := by
  unfold depmanager.manifestLine
  rw [chars_append, chars_append, List.append_assoc]
  rfl

theorem manifest_no_newline (h f : String) (hhw : wsFree h = true) (hfw : wsFree f = true) :
    '\n' ∉ chars (depmanager.manifestLine h f) := by
  rw [manifest_chars]
  intro hmem
  rcases List.mem_append.mp hmem with hmem | hmem
  · exact absurd rfl (not_space_ne_newline _ (wsFree_not_space h hhw _ hmem))
  · rcases hmem with _ | ⟨_, hmem⟩
    rcases hmem with _ | ⟨_, hmem⟩
    exact absurd rfl (not_space_ne_newline _ (wsFree_not_space f hfw _ hmem))

theorem manifest_trim (h f : String) (hh : h ≠ "") (hf : f ≠ "")
    (hhw : wsFree h = true) (hfw : wsFree f = true) :
    goTrimSpace (depmanager.manifestLine h f) = depmanager.manifestLine h f := by
  have hhc : chars h ≠ [] := fun hx => hh ((chars_eq_nil_iff h).mp hx)
  have hfc : chars f ≠ [] := fun hx => hf ((chars_eq_nil_iff f).mp hx)
  have htrim : trimSpaceCh (chars (depmanager.manifestLine h f)) =
      chars (depmanager.manifestLine h f) := by
    apply trimSpaceCh_eq_of_ends
    · rw [manifest_chars, head?_append_left _ _ hhc]
      intro c hc
      exact wsFree_not_space h hhw c (List.mem_of_mem_head? hc)
    · rw [manifest_chars, List.reverse_append]
      have hrev : (' ' :: ' ' :: chars f).reverse = (chars f).reverse ++ [' ', ' '] := by
        simp
      rw [hrev, List.append_assoc, head?_append_left _ _ (by simp [hfc])]
      intro c hc
      have hcf : c ∈ chars f := List.mem_reverse.mp (List.mem_of_mem_head? hc)
      exact wsFree_not_space f hfw c hcf
  show ofChars (trimSpaceCh (chars (depmanager.manifestLine h f))) = _
  rw [htrim]
  rfl

theorem goFields_manifest (h f : String) (hh : h ≠ "") (hf : f ≠ "")
    (hhw : wsFree h = true) (hfw : wsFree f = true) :
    goFields (depmanager.manifestLine h f) = [h, f] := by
  have hhc : chars h ≠ [] := fun hx => hh ((chars_eq_nil_iff h).mp hx)
  have hfc : chars f ≠ [] := fun hx => hf ((chars_eq_nil_iff f).mp hx)
  unfold goFields
  rw [manifest_chars,
    fieldsGo_manifest (chars h) (chars f) hhc hfc
      (wsFree_not_space h hhw) (wsFree_not_space f hfw)]
  rfl

theorem parseSHASums_manifest (m : List (String × String)) (h f : String)
    (hh : h ≠ "") (hf : f ≠ "") (hhw : wsFree h = true) (hfw : wsFree f = true)
    (hlen : goLen h = 64) :
    depmanager.ParseSHASums m (depmanager.manifestLine h f) = insertKey f h m := by
  unfold depmanager.ParseSHASums
  have hsplit : goSplitLines (depmanager.manifestLine h f) =
      [depmanager.manifestLine h f] := by
    unfold goSplitLines
    rw [splitLinesCh_no_newline _ (manifest_no_newline h f hhw hfw)]
    rfl
  rw [hsplit]
  show depmanager.parseLine m (depmanager.manifestLine h f) = _
  unfold depmanager.parseLine
  rw [manifest_trim h f hh hf hhw hfw]
  rw [if_neg (by
    intro hx
    exact absurd ((chars_eq_nil_iff _).mpr hx) (by
      rw [manifest_chars]
      simp [fun hy => hh ((chars_eq_nil_iff h).mp hy)]))]
  rw [goFields_manifest h f hh hf hhw hfw]
  rw [if_neg (by simp), if_neg (by simp [hlen])]
  rfl

/-! ## C8 -/

/-- C8: ParseSHASums adds filename to hash exactly for lines that trim to
two whitespace-separated fields with a 64-byte first field; every other
line is skipped, and the Go function's error result is always nil (the
model is a total function into the updated map).  Manifests parsed in
sequence accumulate into the same map with insert-replace (last write
wins), and two single-entry manifests with distinct filenames produce
exactly the two-entry map. -/
theorem C8_parse_shasums :
    (∀ (m : List (String × String)) (rawLine : String),
       (goTrimSpace rawLine = "" → depmanager.parseLine m rawLine = m) ∧
       ((goFields (goTrimSpace rawLine)).length ≠ 2 →
         depmanager.parseLine m rawLine = m) ∧
       (∀ h f, goFields (goTrimSpace rawLine) = [h, f] → goLen h ≠ 64 →
         depmanager.parseLine m rawLine = m) ∧
       (∀ h f, goFields (goTrimSpace rawLine) = [h, f] → goLen h = 64 →
         depmanager.parseLine m rawLine = insertKey f h m)) ∧
    (∀ (m : List (String × String)) (content : String),
       depmanager.ParseSHASums m content =
         (goSplitLines content).foldl depmanager.parseLine m) ∧
    (∀ (m : List (String × String)) (k v : String),
       lookupKey k (insertKey k v m) = some v) ∧
    (∀ (m : List (String × String)) (k k₂ v : String), k ≠ k₂ →
       lookupKey k₂ (insertKey k v m) = lookupKey k₂ m) ∧
    (∀ h₁ f₁ h₂ f₂ : String,
       h₁ ≠ "" → f₁ ≠ "" → h₂ ≠ "" → f₂ ≠ "" →
       wsFree h₁ = true → wsFree f₁ = true → wsFree h₂ = true → wsFree f₂ = true →
       goLen h₁ = 64 → goLen h₂ = 64 → f₁ ≠ f₂ →
       lookupKey f₁ (depmanager.ParseSHASums
         (depmanager.ParseSHASums [] (depmanager.manifestLine h₁ f₁))
         (depmanager.manifestLine h₂ f₂)) = some h₁ ∧
       lookupKey f₂ (depmanager.ParseSHASums
         (depmanager.ParseSHASums [] (depmanager.manifestLine h₁ f₁))
         (depmanager.manifestLine h₂ f₂)) = some h₂ ∧
       ∀ g, g ≠ f₁ → g ≠ f₂ →
         lookupKey g (depmanager.ParseSHASums
           (depmanager.ParseSHASums [] (depmanager.manifestLine h₁ f₁))
           (depmanager.manifestLine h₂ f₂)) = none) := by
  refine ⟨?_, fun _ _ => rfl, fun m k v => lookupKey_insert_self k v m,
    fun m k k₂ v hne => lookupKey_insert_ne k k₂ v m hne, ?_⟩
  · intro m rawLine
    refine ⟨?_, ?_, ?_, ?_⟩
    · intro h
      unfold depmanager.parseLine
      rw [if_pos h]
    · intro hlen
      unfold depmanager.parseLine
      by_cases hempty : goTrimSpace rawLine = ""
      · rw [if_pos hempty]
      · rw [if_neg hempty, if_pos hlen]
    · intro h f hfields hlen
      unfold depmanager.parseLine
      have hleft : goTrimSpace rawLine ≠ "" := by
        intro hx
        rw [hx] at hfields
        simp [goFields, fieldsGo, chars] at hfields
      rw [if_neg hleft, hfields]
      rw [if_neg (by simp), if_pos (by simpa using hlen)]
    · intro h f hfields hlen
      unfold depmanager.parseLine
      have hleft : goTrimSpace rawLine ≠ "" := by
        intro hx
        rw [hx] at hfields
        simp [goFields, fieldsGo, chars] at hfields
      rw [if_neg hleft, hfields]
      rw [if_neg (by simp), if_neg (by simp [hlen])]
      rfl
  · intro h₁ f₁ h₂ f₂ hh₁ hf₁ hh₂ hf₂ hw₁ hwf₁ hw₂ hwf₂ hl₁ hl₂ hne
    rw [parseSHASums_manifest [] h₁ f₁ hh₁ hf₁ hw₁ hwf₁ hl₁,
      parseSHASums_manifest _ h₂ f₂ hh₂ hf₂ hw₂ hwf₂ hl₂]
    refine ⟨?_, lookupKey_insert_self _ _ _, ?_⟩
    · rw [lookupKey_insert_ne f₂ f₁ h₂ _ (Ne.symm hne)]
      exact lookupKey_insert_self _ _ _
    · intro g hg₁ hg₂
      rw [lookupKey_insert_ne f₂ g h₂ _ (Ne.symm hg₂),
        lookupKey_insert_ne f₁ g h₁ _ (Ne.symm hg₁)]
      rfl

/-- C8 witness: the round-trip conjunct applied to two concrete
single-entry manifests with 64-character hashes and distinct
filenames. -/
theorem C8_parse_shasums_witness :
    lookupKey "f1" (depmanager.ParseSHASums
      (depmanager.ParseSHASums [] (depmanager.manifestLine
        "aaaaaaaaaaaaaaaaaaaaaaaaaaaaaaaaaaaaaaaaaaaaaaaaaaaaaaaaaaaaaaaa" "f1"))
      (depmanager.manifestLine
        "bbbbbbbbbbbbbbbbbbbbbbbbbbbbbbbbbbbbbbbbbbbbbbbbbbbbbbbbbbbbbbbb" "f2")) =
      some "aaaaaaaaaaaaaaaaaaaaaaaaaaaaaaaaaaaaaaaaaaaaaaaaaaaaaaaaaaaaaaaa" ∧
    lookupKey "f2" (depmanager.ParseSHASums
      (depmanager.ParseSHASums [] (depmanager.manifestLine
        "aaaaaaaaaaaaaaaaaaaaaaaaaaaaaaaaaaaaaaaaaaaaaaaaaaaaaaaaaaaaaaaa" "f1"))
      (depmanager.manifestLine
        "bbbbbbbbbbbbbbbbbbbbbbbbbbbbbbbbbbbbbbbbbbbbbbbbbbbbbbbbbbbbbbbb" "f2")) =
      some "bbbbbbbbbbbbbbbbbbbbbbbbbbbbbbbbbbbbbbbbbbbbbbbbbbbbbbbbbbbbbbbb" ∧
    ∀ g, g ≠ "f1" → g ≠ "f2" →
      lookupKey g (depmanager.ParseSHASums
        (depmanager.ParseSHASums [] (depmanager.manifestLine
          "aaaaaaaaaaaaaaaaaaaaaaaaaaaaaaaaaaaaaaaaaaaaaaaaaaaaaaaaaaaaaaaa" "f1"))
        (depmanager.manifestLine
          "bbbbbbbbbbbbbbbbbbbbbbbbbbbbbbbbbbbbbbbbbbbbbbbbbbbbbbbbbbbbbbbb" "f2")) =
        none :=
  C8_parse_shasums.2.2.2.2
    "aaaaaaaaaaaaaaaaaaaaaaaaaaaaaaaaaaaaaaaaaaaaaaaaaaaaaaaaaaaaaaaa" "f1"
    "bbbbbbbbbbbbbbbbbbbbbbbbbbbbbbbbbbbbbbbbbbbbbbbbbbbbbbbbbbbbbbbb" "f2"
    (by decide) (by decide) (by decide) (by decide) (by decide) (by decide)
    (by decide) (by decide) (by decide) (by decide) (by decide)

/-! ## C7 -/

/-- C7: ParseYtdlpStdout folds its scanner step over the newline-split
lines starting from the empty result list, and the step behaves line by
line as claimed: a line trimming to empty is skipped; a non-empty line
the JSON decoder accepts appends that one result at the end; a non-JSON
line matching the filepath regex overwrites the filename of the most
recent result when one exists and is dropped when none does; every other
line leaves the results unchanged. -/
theorem C7_parse_ytdlp_stdout :
    (∀ (jsonDec : String → Option downloader.ResultJSON) (stdout : String),
       downloader.ParseYtdlpStdout jsonDec stdout =
         (goSplitLines stdout).foldl (downloader.ytStep jsonDec) []) ∧
    (∀ (jsonDec : String → Option downloader.ResultJSON) (res : List downloader.ResultJSON)
       (rawLine : String),
       goTrimSpace rawLine = "" →
       downloader.ytStep jsonDec res rawLine = res) ∧
    (∀ (jsonDec : String → Option downloader.ResultJSON) (res : List downloader.ResultJSON)
       (rawLine : String) (r : downloader.ResultJSON),
       goTrimSpace rawLine ≠ "" →
       jsonDec (goTrimSpace rawLine) = some r →
       downloader.ytStep jsonDec res rawLine = res ++ [r]) ∧
    (∀ (jsonDec : String → Option downloader.ResultJSON) (rawLine : String),
       goTrimSpace rawLine ≠ "" →
       jsonDec (goTrimSpace rawLine) = none →
       downloader.reFilepathMatch (goTrimSpace rawLine) = true →
       downloader.ytStep jsonDec [] rawLine = []) ∧
    (∀ (jsonDec : String → Option downloader.ResultJSON)
       (init : List downloader.ResultJSON) (last : downloader.ResultJSON)
       (rawLine : String),
       goTrimSpace rawLine ≠ "" →
       jsonDec (goTrimSpace rawLine) = none →
       downloader.reFilepathMatch (goTrimSpace rawLine) = true →
       downloader.ytStep jsonDec (init ++ [last]) rawLine =
         init ++ [{ last with filename := goTrimSpace rawLine }]) ∧
    (∀ (jsonDec : String → Option downloader.ResultJSON) (res : List downloader.ResultJSON)
       (rawLine : String),
       goTrimSpace rawLine ≠ "" →
       jsonDec (goTrimSpace rawLine) = none →
       downloader.reFilepathMatch (goTrimSpace rawLine) = false →
       downloader.ytStep jsonDec res rawLine = res) := by
  refine ⟨fun _ _ => rfl, ?_, ?_, ?_, ?_, ?_⟩
  · intro jsonDec res rawLine h
    unfold downloader.ytStep
    rw [if_pos h]
  · intro jsonDec res rawLine r h hdec
    unfold downloader.ytStep
    rw [if_neg h, hdec]
  · intro jsonDec rawLine h hdec hre
    unfold downloader.ytStep
    rw [if_neg h, hdec, hre]
    rfl
  · intro jsonDec init last rawLine h hdec hre
    unfold downloader.ytStep
    rw [if_neg h, hdec, hre]
    simp only [if_true, List.getLast?_concat, List.dropLast_concat]
  · intro jsonDec res rawLine h hdec hre
    unfold downloader.ytStep
    rw [if_neg h, hdec, hre]
    rfl

/-- C7 witness: the overwrite clause applied concretely: after one JSON
result, the line "out.mp4" (non-JSON, regex match) replaces its
filename. -/
theorem C7_parse_ytdlp_stdout_witness :
    downloader.ytStep jsonDecNone ([] ++ [rsn]) "out.mp4" =
      [] ++ [{ rsn with filename := goTrimSpace "out.mp4" }] :=
  C7_parse_ytdlp_stdout.2.2.2.2.1 jsonDecNone [] rsn "out.mp4" (by decide) rfl (by decide)

/-! ## Lemmas for the TTL sweep -/

theorem lookupKey_eq_none_iff (k : String) (l : List (String × α)) :
    lookupKey k l = none ↔ ∀ p ∈ l, p.1 ≠ k := by
  induction l with
  | nil => simp [lookupKey]
  | cons p rest ih =>
    by_cases hp : p.1 = k
    · simp [lookupKey, hp]
    · simp [lookupKey, hp, ih]

theorem lookupKey_eraseKey_self (k : String) (l : List (String × α)) :
    lookupKey k (eraseKey k l) = none := by
  rw [lookupKey_eq_none_iff]
  intro p hp
  have h₂ := List.of_mem_filter hp
  simpa using h₂

theorem eraseKey_sublist (k : String) (l : List (String × α)) :
    List.Sublist (eraseKey k l) l :=
  List.filter_sublist l

theorem lookupKey_none_of_sublist (k : String) (l₁ l₂ : List (String × α))
    (hsub : List.Sublist l₂ l₁) (h : lookupKey k l₁ = none) : lookupKey k l₂ = none := by
  rw [lookupKey_eq_none_iff] at h ⊢
  exact fun p hp => h p (hsub.subset hp)

theorem pubsFold_sublist (pubs : List Publication) (P : List (String × Publication)) :
    List.Sublist (pubs.foldl (fun ps pub => eraseKey pub.uuid ps) P) P := by
  induction pubs generalizing P with
  | nil => exact List.Sublist.refl P
  | cons q rest ih =>
    exact (ih (eraseKey q.uuid P)).trans (eraseKey_sublist q.uuid P)

theorem filesFold_sublist (pubs : List Publication) (fs : List String) :
    List.Sublist
      (pubs.foldl
        (fun fs pub =>
          if storage.isAbs pub.filename then fs.filter (fun f => !(f == pub.filename)) else fs)
        fs)
      fs := by
  induction pubs generalizing fs with
  | nil => exact List.Sublist.refl fs
  | cons q rest ih =>
    refine (ih _).trans ?_
    show List.Sublist
      (if storage.isAbs q.filename then fs.filter (fun f => !(f == q.filename)) else fs) fs
    by_cases hq : storage.isAbs q.filename
    · rw [if_pos hq]
      exact List.filter_sublist fs
    · rw [if_neg hq]

theorem cleanup_fold_jobs_none (js : List Job) (acc : storage.Store × List String)
    (k : String) (h : lookupKey k acc.1.jobs = none) :
    lookupKey k (js.foldl storage.cleanupJob acc).1.jobs = none := by
  induction js generalizing acc with
  | nil => exact h
  | cons job rest ih =>
    refine ih (storage.cleanupJob acc job) ?_
    exact lookupKey_none_of_sublist k acc.1.jobs _ (eraseKey_sublist job.uuid acc.1.jobs) h

theorem cleanup_fold_pubs_none (js : List Job) (acc : storage.Store × List String)
    (k : String) (h : lookupKey k acc.1.publications = none) :
    lookupKey k (js.foldl storage.cleanupJob acc).1.publications = none := by
  induction js generalizing acc with
  | nil => exact h
  | cons job rest ih =>
    refine ih (storage.cleanupJob acc job) ?_
    exact lookupKey_none_of_sublist k acc.1.publications _
      (pubsFold_sublist job.publications acc.1.publications) h

theorem cleanup_fold_files_notin (js : List Job) (acc : storage.Store × List String)
    (a : String) (h : a ∉ acc.2) : a ∉ (js.foldl storage.cleanupJob acc).2 := by
  induction js generalizing acc with
  | nil => exact h
  | cons job rest ih =>
    refine ih (storage.cleanupJob acc job) ?_
    intro hmem
    exact h ((filesFold_sublist job.publications acc.2).subset hmem)

theorem pubs_fold_none (pubs : List Publication) (P : List (String × Publication))
    (pub : Publication) (hmem : pub ∈ pubs) :
    lookupKey pub.uuid (pubs.foldl (fun ps q => eraseKey q.uuid ps) P) = none := by
  induction pubs generalizing P with
  | nil => cases hmem
  | cons q rest ih =>
    rcases List.mem_cons.mp hmem with heq | hmem₂
    · subst heq
      exact lookupKey_none_of_sublist _ _ _ (pubsFold_sublist rest _)
        (lookupKey_eraseKey_self pub.uuid P)
    · exact ih _ hmem₂

theorem files_fold_notin (pubs : List Publication) (fs : List String)
    (pub : Publication) (hmem : pub ∈ pubs) (habs : storage.isAbs pub.filename = true) :
    pub.filename ∉ pubs.foldl
      (fun fs q =>
        if storage.isAbs q.filename then fs.filter (fun f => !(f == q.filename)) else fs)
      fs := by
  induction pubs generalizing fs with
  | nil => cases hmem
  | cons q rest ih =>
    rcases List.mem_cons.mp hmem with heq | hmem₂
    · subst heq
      intro hmem₃
      have hsub := (filesFold_sublist rest _).subset hmem₃
      simp only [habs, if_true] at hsub
      have h₄ := List.of_mem_filter hsub
      simp at h₄
    · exact ih _ hmem₂

theorem mem_eraseKey_of_ne (k : String) (p : String × α) (l : List (String × α))
    (hmem : p ∈ l) (hne : p.1 ≠ k) : p ∈ eraseKey k l := by
  refine List.mem_filter.mpr ⟨hmem, ?_⟩
  simpa using hne

theorem nodup_keys_eraseKey (k : String) (l : List (String × α))
    (h : (l.map Prod.fst).Nodup) : ((eraseKey k l).map Prod.fst).Nodup :=
  h.sublist ((eraseKey_sublist k l).map Prod.fst)

theorem lookupKey_eq_some_of_mem_nodup (k : String) (v : α) (l : List (String × α))
    (hmem : (k, v) ∈ l) (hnd : (l.map Prod.fst).Nodup) : lookupKey k l = some v := by
  induction l with
  | nil => cases hmem
  | cons p rest ih =>
    rcases List.mem_cons.mp hmem with heq | hmem₂
    · rw [← heq]
      simp [lookupKey]
    · have hp : p.1 ≠ k := by
        intro hpk
        have hk : k ∈ rest.map Prod.fst := List.mem_map.mpr ⟨(k, v), hmem₂, rfl⟩
        rw [List.map_cons, List.nodup_cons] at hnd
        exact hnd.1 (hpk ▸ hk)
      rw [lookupKey, if_neg hp]
      exact ih hmem₂ (by
        rw [List.map_cons, List.nodup_cons] at hnd
        exact hnd.2)

theorem assoc_mem_unique (k : String) (a b : α) (l : List (String × α))
    (ha : (k, a) ∈ l) (hb : (k, b) ∈ l) (hnd : (l.map Prod.fst).Nodup) : a = b := by
  have h₁ := lookupKey_eq_some_of_mem_nodup k a l ha hnd
  have h₂ := lookupKey_eq_some_of_mem_nodup k b l hb hnd
  rw [h₁] at h₂
  exact Option.some.inj h₂

theorem cleanup_fold_mem_nodup (js : List Job) (acc : storage.Store × List String)
    (k : String) (v : Job)
    (hmem : (k, v) ∈ acc.1.jobs) (hnd : (acc.1.jobs.map Prod.fst).Nodup)
    (hne : ∀ job ∈ js, job.uuid ≠ k) :
    (k, v) ∈ (js.foldl storage.cleanupJob acc).1.jobs ∧
    (((js.foldl storage.cleanupJob acc).1.jobs.map Prod.fst)).Nodup := by
  induction js generalizing acc with
  | nil => exact ⟨hmem, hnd⟩
  | cons job rest ih =>
    refine ih (storage.cleanupJob acc job) ?_ ?_ (fun j hj => hne j (by simp [hj]))
    · exact mem_eraseKey_of_ne job.uuid (k, v) acc.1.jobs hmem
        (fun hk => hne job (by simp) (hk ▸ rfl))
    · exact nodup_keys_eraseKey job.uuid acc.1.jobs hnd

/-! ## C6 -/

/-- C6: after one performCleanup iteration with observation time now,
every job whose expires_at lies strictly before now is gone from the
jobs map, none of its publications remains in the publications map, and
each of its absolute-path artifact files is gone from disk (removal of
an already-absent file being the logged no-op of the model); jobs not
expired keep their registry entry unchanged.  The hypotheses state the
registry invariants SetJob maintains: entries are keyed by the job's
uuid, and keys are unique as in any Go map. -/
theorem C6_sweep (st : storage.Store) (files : List String) (now : ℚ)
    (hkeys : ∀ pr ∈ st.jobs, pr.1 = pr.2.uuid)
    (hnodup : (st.jobs.map Prod.fst).Nodup) :
    (∀ pr ∈ st.jobs, pr.2.expiresAt < now →
       lookupKey pr.1 (storage.performCleanup st files now).1.jobs = none ∧
       ∀ pub ∈ pr.2.publications,
         lookupKey pub.uuid (storage.performCleanup st files now).1.publications = none ∧
         (storage.isAbs pub.filename = true →
           pub.filename ∉ (storage.performCleanup st files now).2)) ∧
    (∀ pr ∈ st.jobs, ¬pr.2.expiresAt < now →
       lookupKey pr.1 (storage.performCleanup st files now).1.jobs = some pr.2) := by
  constructor
  · intro pr hpr hexp
    have hjmem : pr.2 ∈ storage.getExpiredJobs st now := by
      unfold storage.getExpiredJobs
      refine List.mem_filter.mpr ⟨List.mem_map.mpr ⟨pr, hpr, rfl⟩, by simpa using hexp⟩
    obtain ⟨l₁, l₂, hsplit⟩ := List.append_of_mem hjmem
    have hfold : storage.performCleanup st files now =
        l₂.foldl storage.cleanupJob
          (storage.cleanupJob (l₁.foldl storage.cleanupJob (st, files)) pr.2) := by
      unfold storage.performCleanup
      rw [hsplit, List.foldl_append]
      rfl
    have hkey : pr.1 = pr.2.uuid := hkeys pr hpr
    constructor
    · rw [hfold]
      refine cleanup_fold_jobs_none l₂ _ pr.1 ?_
      show lookupKey pr.1 (eraseKey pr.2.uuid _) = none
      rw [hkey]
      exact lookupKey_eraseKey_self _ _
    · intro pub hpub
      constructor
      · rw [hfold]
        refine cleanup_fold_pubs_none l₂ _ pub.uuid ?_
        exact pubs_fold_none pr.2.publications _ pub hpub
      · intro habs
        rw [hfold]
        refine cleanup_fold_files_notin l₂ _ pub.filename ?_
        exact files_fold_notin pr.2.publications _ pub hpub habs
  · intro pr hpr hlive
    have hne : ∀ job ∈ storage.getExpiredJobs st now, job.uuid ≠ pr.1 := by
      intro job hjob hk
      unfold storage.getExpiredJobs at hjob
      obtain ⟨hjmem, hjexp⟩ := List.mem_filter.mp hjob
      obtain ⟨q, hq, hq₂⟩ := List.mem_map.mp hjmem
      have hqk : q.1 = job.uuid := by rw [hkeys q hq, hq₂]
      have hqmem : (pr.1, job) ∈ st.jobs := by
        have hqe : q = (pr.1, job) := by
          rcases q with ⟨qk, qv⟩
          simp only at hq₂ hqk
          rw [Prod.mk.injEq]
          refine ⟨?_, hq₂⟩
          rw [hqk]
          exact hk
        rw [← hqe]
        exact hq
      have hprmem : (pr.1, pr.2) ∈ st.jobs := hpr
      have heq : job = pr.2 := assoc_mem_unique pr.1 job pr.2 st.jobs hqmem hprmem hnodup
      rw [heq] at hjexp
      exact hlive (by simpa using hjexp)
    have hmain := cleanup_fold_mem_nodup (storage.getExpiredJobs st now) (st, files)
      pr.1 pr.2 hpr hnodup hne
    exact lookupKey_eq_some_of_mem_nodup pr.1 pr.2 _ hmain.1 hmain.2

/-- C6 witness: a registry with one expired job owning an absolute-path
artifact on disk and one live job; after the sweep the expired job, its
publication and its file are gone while the live job's entry is
intact. -/
theorem C6_sweep_witness :
    (lookupKey "je" (storage.performCleanup stSweep filesSweep 2).1.jobs = none ∧
     ∀ pub ∈ jobExp.publications,
       lookupKey pub.uuid (storage.performCleanup stSweep filesSweep 2).1.publications =
         none ∧
       (storage.isAbs pub.filename = true →
         pub.filename ∉ (storage.performCleanup stSweep filesSweep 2).2)) ∧
    lookupKey "jl" (storage.performCleanup stSweep filesSweep 2).1.jobs = some jobLive :=
  ⟨(C6_sweep stSweep filesSweep 2 (by decide) (by decide)).1 ("je", jobExp)
      (by decide) (by decide),
   (C6_sweep stSweep filesSweep 2 (by decide) (by decide)).2 ("jl", jobLive)
      (by decide) (by decide)⟩

/-! ## Lemmas for the read-clone models -/

theorem lookupKey_mem (k : String) (v : α) (l : List (String × α))
    (h : lookupKey k l = some v) : (k, v) ∈ l := by
  induction l with
  | nil => cases h
  | cons p rest ih =>
    by_cases hp : p.1 = k
    · rw [lookupKey, if_pos hp] at h
      have hpv : p = (k, v) := by
        rcases p with ⟨pk, pv⟩
        simp only at hp
        rw [Prod.mk.injEq]
        exact ⟨hp, Option.some.inj h⟩
      rw [← hpv]
      exact List.mem_cons_self p rest
    · rw [lookupKey, if_neg hp] at h
      exact List.mem_cons_of_mem p (ih h)

theorem set_append_length (l : List α) (a b : α) :
    (l ++ [a]).set l.length b = l ++ [b] := by
  induction l with
  | nil => rfl
  | cons c rest ih => simp [List.set, ih]

theorem set_get_self (l : List α) (n : Nat) (a : α) (h : l.get? n = some a) :
    l.set n a = l := by
  induction l generalizing n with
  | nil => rfl
  | cons c rest ih =>
    cases n with
    | zero =>
      have hc : c = a := Option.some.inj h
      rw [← hc]
      rfl
    | succ m =>
      have h₂ : rest.get? m = some a := h
      show c :: rest.set m a = c :: rest
      rw [ih m h₂]

/-- Equation of copyJob on a non-empty publications slice: a fresh
backing array is appended and the copy points at it. -/
theorem copyJob_pos (st : storageval.ValState) (j : storageval.JobV)
    (h : 0 < (storageval.sliceAt st.pubHeap j.pubsRef).length) :
    storageval.copyJob st j =
      ({ j with pubsRef := some st.pubHeap.length },
       { st with pubHeap := st.pubHeap ++ [storageval.sliceAt st.pubHeap j.pubsRef] }) := by
  unfold storageval.copyJob
  rw [if_pos h]

/-- Equation of copyJob on an empty publications slice: nothing is
copied. -/
theorem copyJob_neg (st : storageval.ValState) (j : storageval.JobV)
    (h : ¬0 < (storageval.sliceAt st.pubHeap j.pubsRef).length) :
    storageval.copyJob st j = (j, st) := by
  unfold storageval.copyJob
  rw [if_neg h]

/-! ## C9 -/

/-- C9 counterexample: the pointer-variant GetJobByID returns the stored
reference itself, so a caller writing through it is observed by the next
read: after mutating the returned pointer the registry's job shows the
caller's progress value, refuting "the job stored in the registry is
unchanged" for that read operation. -/
theorem C9_counterexample :
    storageptr.GetJobByID stPtr "j9" = some 0 ∧
    storageptr.readJob stPtr 0 = some jobPtr ∧
    storageptr.readJob (storageptr.writeJob stPtr 0 { jobPtr with progress := 77 }) 0 =
      some { jobPtr with progress := 77 } ∧
    ({ jobPtr with progress := 77 } : Job) ≠ jobPtr := by
  refine ⟨rfl, rfl, rfl, by decide⟩

/-- C9 amended: in the value-variant registry every read hands back
copyJob of the stored value, whose publications backing array is freshly
allocated whenever non-empty; writing any index of the returned job's
slice therefore leaves both the stored job record and the contents of
its publications slice unchanged.  (The pointer variant has no such
guarantee, as the counterexample shows.) -/
theorem C9_read_clone (st : storageval.ValState) (id : String) (j₀ : storageval.JobV)
    (hwf : storageval.wfRefs st)
    (hlook : lookupKey id st.jobs = some j₀) :
    (storageval.GetJobByID st id).1 = some (storageval.copyJob st j₀).1 ∧
    ∀ (r i : Nat) (p : Publication),
      (storageval.copyJob st j₀).1.pubsRef = some r →
      lookupKey id (storageval.writeSlice (storageval.copyJob st j₀).2 r i p).jobs =
        some j₀ ∧
      storageval.sliceAt
          (storageval.writeSlice (storageval.copyJob st j₀).2 r i p).pubHeap
          j₀.pubsRef =
        storageval.sliceAt st.pubHeap j₀.pubsRef := by
  have hmem : (id, j₀) ∈ st.jobs := lookupKey_mem id j₀ st.jobs hlook
  constructor
  · unfold storageval.GetJobByID
    rw [hlook]
  · intro r i p hr
    by_cases hlen : 0 < (storageval.sliceAt st.pubHeap j₀.pubsRef).length
    · obtain ⟨r₀, hr₀⟩ : ∃ r₀, j₀.pubsRef = some r₀ := by
        cases hpr : j₀.pubsRef with
        | none =>
          rw [hpr] at hlen
          simp [storageval.sliceAt] at hlen
        | some r₀ => exact ⟨r₀, rfl⟩
      have hr₀lt : r₀ < st.pubHeap.length :=
        hwf (id, j₀) hmem r₀ (by rw [hr₀]; rfl)
      rw [copyJob_pos st j₀ hlen] at hr ⊢
      have hrL : r = st.pubHeap.length := (Option.some.inj hr).symm
      subst hrL
      constructor
      · exact hlook
      · unfold storageval.writeSlice storageval.sliceAt
        rw [hr₀]
        simp only
        rw [List.get?_concat_length]
        rw [set_append_length]
        rw [List.get?_append hr₀lt]
    · rw [copyJob_neg st j₀ hlen] at hr ⊢
      have hrlt : r < st.pubHeap.length := hwf (id, j₀) hmem r (by rw [hr]; rfl)
      have hget : st.pubHeap.get? r = some (storageval.sliceAt st.pubHeap j₀.pubsRef) := by
        have hs : storageval.sliceAt st.pubHeap j₀.pubsRef = (st.pubHeap.get? r).getD [] := by
          unfold storageval.sliceAt
          rw [hr]
        rw [hs]
        cases hx : st.pubHeap.get? r with
        | none =>
          rw [List.get?_eq_none] at hx
          omega
        | some x => rfl
      have harr : storageval.sliceAt st.pubHeap j₀.pubsRef = [] := by
        have h₂ : (storageval.sliceAt st.pubHeap j₀.pubsRef).length = 0 := by omega
        exact List.length_eq_zero.mp h₂
      have hwrite : storageval.writeSlice st r i p = st := by
        unfold storageval.writeSlice
        rw [hget, harr]
        have hsetnil : (([] : List Publication).set i p) = [] := by
          cases i <;> rfl
        rw [Option.getD_some, hsetnil, ← harr, set_get_self st.pubHeap r _ hget]
      rw [hwrite]
      exact ⟨hlook, rfl⟩

/-- C9 witness: the amended theorem applied to the one-job value registry
stVal, writing publication index 0 through the returned copy's slice
reference. -/
theorem C9_read_clone_witness :
    (storageval.GetJobByID stVal "jv").1 = some (storageval.copyJob stVal jobV0).1 ∧
    ∀ (r i : Nat) (p : Publication),
      (storageval.copyJob stVal jobV0).1.pubsRef = some r →
      lookupKey "jv" (storageval.writeSlice (storageval.copyJob stVal jobV0).2 r i p).jobs =
        some jobV0 ∧
      storageval.sliceAt
          (storageval.writeSlice (storageval.copyJob stVal jobV0).2 r i p).pubHeap
          jobV0.pubsRef =
        storageval.sliceAt stVal.pubHeap jobV0.pubsRef :=
  C9_read_clone stVal "jv" jobV0
    (by
      intro pr hpr r hrr
      have hpr₂ : pr = ("jv", jobV0) := List.mem_singleton.mp hpr
      subst hpr₂
      have hr₂ : (some 0 : Option Nat) = some r := hrr
      have hr₃ : r = 0 := (Option.some.inj hr₂).symm
      subst hr₃
      decide)
    (by decide)

end Daunrodo
